import Mathlib

/-!
Shallow embedding of the `news_scraper` ingestion pipeline
(`src/news_scraper/{io,scrape,analyze,index,ingest,llm_schema}.py`) and proofs
about its deduplication, eligibility and error-propagation behaviour.

Strings are modelled as Lean `String`/`List Char`; machine-level details that no
claim depends on (timestamps, HTTP headers, vector contents) are opaque
parameters.  External collaborators (HTTP fetcher, trafilatura extraction, the
LLM and the embedding client) are modelled as oracle functions returning
`Except`, matching the "raises after its own retries" contract of the code.
-/

namespace NewsScraper

/-- Whitespace characters removed by Python `str.strip()` (ASCII subset). -/
def pyIsSpace (c : Char) : Bool :=
  c = ' ' || c = '\t' || c = '\n' || c = '\r' || c = '\x0b' || c = '\x0c'

/-- Python `str.strip()` on a character list. -/
def pyStrip (s : List Char) : List Char :=
  ((s.dropWhile pyIsSpace).reverse.dropWhile pyIsSpace).reverse

/-- Python `str.strip()` on a string. -/
def pyStripStr (s : String) : String :=
  String.mk (pyStrip s.toList)

/-- Python `str.lower()` on a character list (ASCII letters). -/
def pyLower (s : List Char) : List Char :=
  s.map Char.toLower

/-- Python `str.lower()` on a string. -/
def pyLowerStr (s : String) : String :=
  String.mk (pyLower s.toList)

/-- Membership of a string in a list, mirroring Python `in` over a set of
strings (only membership is ever observed, so a list models the set). -/
def memStr (x : String) : List String → Bool
  | [] => false
  | y :: ys => if x = y then true else memStr x ys

/-- Splits a character list at the first occurrence of `c`, returning the parts
before and after it, like Python `str.split(c, 1)` when `c` occurs. -/
def splitOnFirst (c : Char) : List Char → Option (List Char × List Char)
  | [] => none
  | x :: xs =>
    if x = c then some ([], xs)
    else
      match splitOnFirst c xs with
      | some (a, b) => some (x :: a, b)
      | none => none

/-- The five components returned by `urllib.parse.urlsplit`. -/
structure UrlParts where
  scheme : List Char
  netloc : List Char
  path : List Char
  query : List Char
  fragment : List Char
deriving Repr, DecidableEq

/-- Characters allowed in a URL scheme (`urllib.parse.scheme_chars`). -/
def isSchemeChar (c : Char) : Bool :=
  c.isAlpha || c.isDigit || c = '+' || c = '-' || c = '.'

/-- WHATWG C0 control or space, left-stripped by `urlsplit`. -/
def isC0ControlOrSpace (c : Char) : Bool :=
  c.toNat ≤ 0x20

/-- Tab, CR and LF are removed anywhere in the URL by `urlsplit`. -/
def isUnsafeUrlChar (c : Char) : Bool :=
  c = '\t' || c = '\r' || c = '\n'

/-- The scheme stage of `urlsplit`: split at the first `:` when the prefix is
a valid scheme (initial letter, scheme characters only), lowercasing it. -/
def urlsplitScheme (url : List Char) : List Char × List Char :=
  match splitOnFirst ':' url with
  | some (pre, post) =>
    if pre ≠ [] && (pre.headD 'a').isAlpha && pre.all isSchemeChar then
      (pyLower pre, post)
    else
      (([] : List Char), url)
  | none => (([] : List Char), url)

/-- The netloc stage of `urlsplit`: after a leading `//`, the netloc extends
up to the next `/`, `?` or `#`. -/
def urlsplitNetloc (rest : List Char) : List Char × List Char :=
  match rest with
  | '/' :: '/' :: tail =>
    (tail.takeWhile (fun c => !(c = '/' || c = '?' || c = '#')),
     tail.dropWhile (fun c => !(c = '/' || c = '?' || c = '#')))
  | _ => (([] : List Char), rest)

/-- The fragment stage of `urlsplit`: split at the first `#`. -/
def urlsplitFrag (rest : List Char) : List Char × List Char :=
  match splitOnFirst '#' rest with
  | some (a, b) => (a, b)
  | none => (rest, ([] : List Char))

/-- The query stage of `urlsplit`: split at the first `?`. -/
def urlsplitQuery (rest : List Char) : List Char × List Char :=
  match splitOnFirst '?' rest with
  | some (a, b) => (a, b)
  | none => (rest, ([] : List Char))

/-- Models CPython `urllib.parse.urlsplit` for the `str` inputs this program
feeds it: strip leading C0-control/space, remove tab/CR/LF, split off a valid
scheme at the first `:`, read the netloc after `//` up to `/`, `?` or `#`,
then split fragment at the first `#` and query at the first `?`. -/
def urlsplit (url : List Char) : UrlParts :=
  let url := (url.dropWhile isC0ControlOrSpace).filter (fun c => !isUnsafeUrlChar c)
  let (scheme, rest) := urlsplitScheme url
  let (netloc, rest) := urlsplitNetloc rest
  let (rest, fragment) := urlsplitFrag rest
  let (path, query) := urlsplitQuery rest
  { scheme := scheme, netloc := netloc, path := path, query := query,
    fragment := fragment }

/-- Models CPython `urllib.parse.urlunsplit`: reassemble the five components,
inserting `//`, `:`, `?` and `#` only when the corresponding part is present. -/
def urlunsplit (p : UrlParts) : List Char :=
  let url := p.path
  let url :=
    if p.netloc ≠ [] || url.take 2 = ['/', '/'] then
      (if url ≠ [] && url.headD '/' ≠ '/' then
        '/' :: '/' :: (p.netloc ++ '/' :: url)
      else
        '/' :: '/' :: (p.netloc ++ url))
    else url
  let url := if p.scheme ≠ [] then p.scheme ++ ':' :: url else url
  let url := if p.query ≠ [] then url ++ '?' :: p.query else url
  if p.fragment ≠ [] then url ++ '#' :: p.fragment else url

/-- Embeds `io.normalize_url`: trim whitespace, drop the fragment, and remove
one trailing slash of the reassembled URL unless the path is empty or root. -/
def normalize_url (url : String) : String :=
  let stripped := pyStrip url.toList
  let parts := urlsplit stripped
  let parts := { parts with fragment := [] }
  let normalized := urlunsplit parts
  let normalized :=
    if normalized.getLast? = some '/' && !(parts.path = [] || parts.path = ['/']) then
      normalized.dropLast
    else normalized
  String.mk normalized

/-- Models the validation and JSON serialization of pydantic v2 `HttpUrl`
(the type of `ArticleRaw.url` in `models.py`) for the ASCII http(s) URLs this
development uses: the scheme must be `http` or `https` and the host nonempty;
on serialization pydantic-core normalizes the URL, lowercasing the scheme and
host and rendering an empty path as `/` (so `HttpUrl("https://a.com")`
serializes back as `"https://a.com/"`).  Returns `none` when validation fails
(a pydantic `ValidationError`). -/
def pydanticHttpUrl (s : String) : Option String :=
  let parts := urlsplit (pyStrip s.toList)
  let scheme := pyLower parts.scheme
  if (scheme = "http".toList || scheme = "https".toList) && parts.netloc ≠ [] then
    some (String.mk (urlunsplit
      { parts with
        scheme := scheme
        netloc := pyLower parts.netloc
        path := if parts.path = [] then ['/'] else parts.path }))
  else
    none

/-- Truthiness of an optional string, as Python evaluates `obj` in a boolean
context: `None` and `""` are falsy. -/
def optStrTruthy : Option String → Bool
  | none => false
  | some s => s ≠ ""

/-- Embeds `models.ArticleRaw`.  `url` holds the pydantic-serialized URL
string.  `fetched_at` is a wall-clock timestamp no claim observes, modelled as
an opaque string defaulting to `""`. -/
structure ArticleRaw where
  url : String
  source : Option String := none
  title : Option String := none
  text : Option String := none
  fetched_at : String := ""
  status : String := "ok"
  error : Option String := none
  http_status : Option Nat := none
  content_type : Option String := none
  chars : Nat := 0
deriving Repr, DecidableEq

/-- Embeds `models.ArticleAI`: all `ArticleRaw` fields plus the LLM output. -/
structure ArticleAI extends ArticleRaw where
  summary : Option String := none
  topics : List String := []
  llm_model : Option String := none
deriving Repr, DecidableEq

/-- Embeds `io.read_urls_from_file` applied to the file's lines: strip each
line, skip blank lines and `#` comments, deduplicate keeping first occurrence
(the accumulator plays the role of the `seen` set). -/
def readUrlsGo (seen : List String) : List String → List String
  | [] => []
  | raw :: rest =>
    let line := pyStripStr raw
    if line = "" || line.toList.headD ' ' = '#' then readUrlsGo seen rest
    else if memStr line seen then readUrlsGo seen rest
    else line :: readUrlsGo (line :: seen) rest

/-- Embeds `io.read_urls_from_file` (the file modelled as its list of lines). -/
def read_urls_from_file (lines : List String) : List String :=
  readUrlsGo [] lines

/-- Embeds `io.load_seen_urls` over the url fields of a record-store file:
records whose `url` field is falsy are skipped, the rest are normalized.  The
Python set is modelled as a list observed only through membership. -/
def seenUrlsOfUrls (urls : List String) : List String :=
  (urls.filter (fun u => u ≠ "")).map normalize_url

/-- Embeds `io.load_seen_urls` on a raw-record store. -/
def load_seen_urls (recs : List ArticleRaw) : List String :=
  seenUrlsOfUrls (recs.map (fun r => r.url))

/-- Embeds `io.load_seen_urls` on an AI-record store. -/
def load_seen_urls_ai (recs : List ArticleAI) : List String :=
  seenUrlsOfUrls (recs.map (fun r => r.url))

/-- Embeds `http_client.FetchResult` (the `error` field is never set by
`HttpFetcher.fetch` and is omitted). -/
structure FetchResult where
  final_url : String
  status_code : Option Nat
  content_type : Option String
  html : Option String
deriving Repr, DecidableEq

/-- Collaborator oracles of the scrape stage.  `fetch` models
`HttpFetcher.fetch` after its own retries: `.error` is the exception it raises
once retries are exhausted (or any other exception out of the HTTP layer).
`trafMeta`/`trafExtract`/`soupTitle` model the trafilatura and BeautifulSoup
calls in `extract_article`; `none` stands for a missing value or a swallowed
exception, exactly how the code treats both. -/
structure ScrapeOracles where
  fetch : String → Except String FetchResult
  trafMeta : String → Option String
  trafExtract : String → Option String
  soupTitle : String → Option String

/-- Embeds `scrape._domain`: `urlparse(url).netloc or None`. -/
def scrapeDomain (url : String) : Option String :=
  let n := (urlsplit url.toList).netloc
  if n = [] then none else some (String.mk n)

/-- Embeds `scrape.ExtractedArticle`. -/
structure ExtractedArticle where
  url : String
  source : Option String
  title : Option String
  text : Option String
  chars : Nat
deriving Repr, DecidableEq

/-- Embeds `scrape.extract_article`: metadata title when truthy, main text
stripped (falsy results become `None`), BeautifulSoup title fallback, and the
`min_chars` threshold that nulls out too-short text while keeping `chars`. -/
def extract_article (o : ScrapeOracles) (url html : String) (min_chars : Nat) :
    ExtractedArticle :=
  let source := scrapeDomain url
  let title : Option String :=
    match o.trafMeta html with
    | some t => if t = "" then none else some t
    | none => none
  let text : Option String :=
    match o.trafExtract html with
    | some ex =>
      if ex = "" then none
      else
        let s := pyStripStr ex
        if s = "" then none else some s
    | none => none
  let title : Option String :=
    match title with
    | some t => some t
    | none => (o.soupTitle html).map pyStripStr
  let chars := (text.map String.length).getD 0
  if chars < min_chars then
    { url := url, source := source, title := title, text := none, chars := chars }
  else
    { url := url, source := source, title := title, text := text, chars := chars }

/-- The body of the `try` block of `_scrape_one_url`: fetch, classify empty
HTML, extract, and apply the `min_chars` classification; every exception of
the fetch layer is caught here and becomes a failed record. -/
def scrapeTryBlock (o : ScrapeOracles) (record : ArticleRaw) (url_norm : String)
    (min_chars : Nat) : ArticleRaw :=
  match o.fetch url_norm with
  | .error e => { record with status := "failed", error := some ("http error: " ++ e) }
  | .ok res =>
    let record := { record with
      http_status := res.status_code, content_type := res.content_type }
    match res.html with
    | none => { record with status := "failed", error := some "Empty HTML response" }
    | some h =>
      if h = "" then
        { record with status := "failed", error := some "Empty HTML response" }
      else
        let ex := extract_article o res.final_url h min_chars
        let record := { record with
          source := ex.source, title := ex.title, text := ex.text, chars := ex.chars }
        match ex.text with
        | none =>
          { record with
            status := "failed"
            error := some ("Extraction too short (<" ++ toString min_chars ++ " chars)") }
        | some _ => { record with status := "ok" }

/-- Embeds `scrape._scrape_one_url`.  The pydantic validation of
`ArticleRaw(url=url_norm)` happens before the `try` block, so its failure is
returned as `.error` (an uncaught exception); the `try` body never raises. -/
def scrapeOneUrl (o : ScrapeOracles) (url : String) (min_chars : Nat) :
    Except String ArticleRaw :=
  let url_norm := normalize_url url
  match pydanticHttpUrl url_norm with
  | none => .error ("ValidationError: invalid HttpUrl: " ++ url_norm)
  | some u => .ok (scrapeTryBlock o { url := u } url_norm min_chars)

/-- Summary dictionary returned by `scrape_urls_to_jsonl` (the derived `added`
entry equals `ok + failed` and is left out). -/
structure ScrapeSummary where
  total_input : Nat
  ok : Nat
  failed : Nat
  skipped_existing : Nat
deriving Repr, DecidableEq

deriving instance DecidableEq for Except

/-- Result of a scrape batch: the records appended to the output file in
order, and either the summary or the uncaught exception that aborted the
loop (records appended before the abort are still on disk). -/
structure ScrapeBatchOut where
  records : List ArticleRaw
  summary : Except String ScrapeSummary
deriving Repr, DecidableEq

/-- Running state of the scrape batch loop: records appended so far and the
three counters, plus the uncaught exception if the loop aborted. -/
structure ScrapeLoopOut where
  records : List ArticleRaw
  okCount : Nat
  failedCount : Nat
  skippedCount : Nat
  err : Option String
deriving Repr, DecidableEq

/-- The batch loop of `scrape_urls_to_jsonl`, abstracted over the per-URL
operation (`_scrape_one_url` with its oracles and `min_chars` applied): skip
URLs in the seen set, otherwise scrape, append, and mark seen regardless of
ok/failed.  An exception out of the per-URL operation propagates, ending the
loop. -/
def scrapeGo (scrapeOne : String → Except String ArticleRaw) :
    List String → List String → ScrapeLoopOut
  | _, [] => { records := [], okCount := 0, failedCount := 0, skippedCount := 0, err := none }
  | seen, url :: rest =>
    if memStr url seen then
      let r := scrapeGo scrapeOne seen rest
      { r with skippedCount := r.skippedCount + 1 }
    else
      match scrapeOne url with
      | .error e =>
        { records := [], okCount := 0, failedCount := 0, skippedCount := 0, err := some e }
      | .ok rec =>
        let r := scrapeGo scrapeOne (url :: seen) rest
        { r with
          records := rec :: r.records
          okCount := if rec.status = "ok" then r.okCount + 1 else r.okCount
          failedCount := if rec.status = "ok" then r.failedCount else r.failedCount + 1 }

/-- Embeds `scrape.scrape_urls_to_jsonl`: read and deduplicate the input
lines, normalize, truncate to `limit` entries, load the seen set from the
output file, then run the batch loop. -/
def scrape_urls_to_jsonl (o : ScrapeOracles) (lines : List String)
    (outFile : List ArticleRaw) (limit : Option Nat) (min_chars : Nat) :
    ScrapeBatchOut :=
  let urls := (read_urls_from_file lines).map normalize_url
  let urls := match limit with | some n => urls.take n | none => urls
  let seen := load_seen_urls outFile
  let r := scrapeGo (fun u => scrapeOneUrl o u min_chars) seen urls
  { records := r.records
    summary :=
      match r.err with
      | some err => .error err
      | none =>
        .ok { total_input := urls.length, ok := r.okCount, failed := r.failedCount,
              skipped_existing := r.skippedCount } }

/-- The number of attempts the scrape loop performs: input entries not in the
seen set, with in-run duplicates skipped via the growing seen set. -/
def countNewUrls (seen : List String) : List String → Nat
  | [] => 0
  | u :: us =>
    if memStr u seen then countNewUrls seen us
    else countNewUrls (u :: seen) us + 1

/-- Embeds `scrape.scrape_single_url_to_jsonl`: returns the appended records
(zero or one) and the summary, or the uncaught validation exception. -/
def scrape_single_url_to_jsonl (o : ScrapeOracles) (url : String)
    (outFile : List ArticleRaw) (min_chars : Nat) :
    List ArticleRaw × Except String ScrapeSummary :=
  let url_norm := normalize_url url
  let seen := load_seen_urls outFile
  if memStr url_norm seen then
    ([], .ok { total_input := 1, ok := 0, failed := 0, skipped_existing := 1 })
  else
    match scrapeOneUrl o url_norm min_chars with
    | .error e => ([], .error e)
    | .ok rec =>
      ([rec],
       .ok { total_input := 1
             ok := if rec.status = "ok" then 1 else 0
             failed := if rec.status = "ok" then 0 else 1
             skipped_existing := 0 })

/-- The loop of `LLMArticleAnalysis.validate_topics` (`llm_schema.py`, also
duplicated in `models.py`): strip and lowercase each tag, keep it only when
nonempty and not already in the accumulated `cleaned` list. -/
def cleanTopicsLoop (cleaned : List String) : List String → List String
  | [] => cleaned
  | t :: ts =>
    let t := pyLowerStr (pyStripStr t)
    if t ≠ "" && !memStr t cleaned then cleanTopicsLoop (cleaned ++ [t]) ts
    else cleanTopicsLoop cleaned ts

/-- Embeds `LLMArticleAnalysis.validate_topics`: clean the list, then require
between 3 and 7 items; otherwise a `ValueError` surfaces as a pydantic
validation error. -/
def validate_topics (v : List String) : Except String (List String) :=
  let cleaned := cleanTopicsLoop [] v
  if 3 ≤ cleaned.length && cleaned.length ≤ 7 then .ok cleaned
  else .error "topics must contain between 3 and 7 items"

/-- Embeds `LLMArticleAnalysis.summary_not_empty`: reject blank summaries,
return the stripped summary otherwise. -/
def validate_summary (v : String) : Except String String :=
  if pyStripStr v = "" then .error "summary must not be empty" else .ok (pyStripStr v)

/-- A validated `LLMArticleAnalysis` as produced by the LLM client. -/
structure LLMAnalysis where
  summary : String
  topics : List String
deriving Repr, DecidableEq

/-- The LLM collaborator: `analyze` models prompt building plus
`LLMClient.analyze_article` (with its retries); `.error` is any exception it
finally raises, including JSON/schema validation failures.  `model` is the
client's `_model` identifier. -/
structure LLMOracle where
  analyze : ArticleRaw → Except String LLMAnalysis
  model : String

/-- Embeds `analyze.analyze_one_article_raw`: on LLM success, copy every raw
field into an `ArticleAI` and fill in summary, topics and the model id. -/
def analyze_one_article_raw (llm : LLMOracle) (raw : ArticleRaw) :
    Except String ArticleAI :=
  (llm.analyze raw).map fun a =>
    { toArticleRaw := raw
      summary := some a.summary
      topics := a.topics
      llm_model := some llm.model }

/-- Embeds `analyze.build_failed_ai_from_raw`: a failed AI record carrying the
raw fields, the exception message and the model id. -/
def build_failed_ai_from_raw (llm : LLMOracle) (raw : ArticleRaw) (e : String) :
    ArticleAI :=
  { toArticleRaw := { raw with status := "failed", error := some ("llm error: " ++ e) }
    llm_model := some llm.model }

/-- The eligibility test of `analyze.iter_ok_articles`: keep a record iff its
status is `ok` and its text is truthy and does not strip to the empty
string. -/
def iter_ok_keep (a : ArticleRaw) : Bool :=
  if a.status ≠ "ok" then false
  else if !optStrTruthy a.text || pyStripStr ((a.text).getD "") = "" then false
  else true

/-- Python `limit is not None and count >= limit`, the early-stop test of the
analyze and index batch loops. -/
def limitReached (limit : Option Nat) (count : Nat) : Bool :=
  match limit with
  | some n => count ≥ n
  | none => false

/-- Summary dictionary returned by `analyze_raw_to_ai_jsonl`. -/
structure AnalyzeSummary where
  processed : Nat
  failed : Nat
  skipped_already : Nat
deriving Repr, DecidableEq

/-- Result of an analyze batch: the AI records appended to the output file in
order, the raw articles actually sent to the LLM in order (`trace`), and
either the summary or the uncaught exception that aborted the loop. -/
structure AnalyzeBatchOut where
  appended : List ArticleAI
  trace : List ArticleRaw
  summary : Except String AnalyzeSummary
deriving Repr, DecidableEq

/-- The batch loop of `analyze_raw_to_ai_jsonl` over the raw file's parsed
lines.  A line is `.error` when `json.loads` or `ArticleRaw.model_validate`
raises inside `iter_ok_articles`; that exception is not caught by the loop and
aborts the batch.  Ineligible records are filtered by the generator before the
limit check; the limit is tested on each eligible article before the seen-set
check, and the LLM failure path appends a failed record and marks the URL seen
exactly like the success path. -/
def analyzeGo (llm : LLMOracle) (limit : Option Nat) :
    List String → Nat → Nat → Nat → List (Except String ArticleRaw) → AnalyzeBatchOut
  | _, p, f, s, [] => { appended := [], trace := [], summary := .ok ⟨p, f, s⟩ }
  | already, p, f, s, line :: rest =>
    match line with
    | .error e => { appended := [], trace := [], summary := .error e }
    | .ok art =>
      if !iter_ok_keep art then analyzeGo llm limit already p f s rest
      else if limitReached limit p then
        { appended := [], trace := [], summary := .ok ⟨p, f, s⟩ }
      else
        let key := normalize_url art.url
        if memStr key already then analyzeGo llm limit already p f (s + 1) rest
        else
          match analyze_one_article_raw llm art with
          | .ok enriched =>
            let r := analyzeGo llm limit (key :: already) (p + 1) f s rest
            { r with appended := enriched :: r.appended, trace := art :: r.trace }
          | .error e =>
            let r := analyzeGo llm limit (key :: already) p (f + 1) s rest
            { r with
              appended := build_failed_ai_from_raw llm art e :: r.appended
              trace := art :: r.trace }

/-- Embeds `analyze.analyze_raw_to_ai_jsonl`: load the seen set from the
output file and run the loop over the raw file's lines. -/
def analyze_raw_to_ai_jsonl (llm : LLMOracle) (rawLines : List (Except String ArticleRaw))
    (outFile : List ArticleAI) (limit : Option Nat) : AnalyzeBatchOut :=
  analyzeGo llm limit (load_seen_urls_ai outFile) 0 0 0 rawLines

/-- Embeds `vector_models.VectorDocument`; the scalar metadata dict is
flattened into one field per key. -/
structure VectorDocument where
  id : String
  text : String
  meta_url : String
  meta_title : String
  meta_source : String
  meta_summary : String
  meta_topics : String
  meta_topic_count : Nat
deriving Repr, DecidableEq

/-- Embeds `vector_text.build_embedding_text`: the newline-joined non-blank
parts title, summary and `"Topics: "` plus the comma-joined topics. -/
def build_embedding_text (a : ArticleAI) : String :=
  let parts : List String :=
    (if optStrTruthy a.title then [pyStripStr ((a.title).getD "")] else []) ++
    (if optStrTruthy a.summary then [pyStripStr ((a.summary).getD "")] else []) ++
    (if a.topics ≠ [] then ["Topics: " ++ String.intercalate ", " a.topics] else [])
  String.intercalate "\n\n" parts

/-- Embeds `vector_io.article_to_vector_doc` (re-exported by the missing
`vectorstore_chroma` module): id and metadata url are the record's URL string,
the summary metadata is truncated to 2000 characters, topics are stored
comma-joined plus a count. -/
def article_to_vector_doc (a : ArticleAI) : VectorDocument :=
  let topics_str := if a.topics ≠ [] then String.intercalate ", " a.topics else ""
  { id := a.url
    text := build_embedding_text a
    meta_url := a.url
    meta_title := (a.title).getD ""
    meta_source := (a.source).getD ""
    meta_summary := (((a.summary).getD "").take 2000)
    meta_topics := topics_str
    meta_topic_count := a.topics.length }

/-- Modelled from the spec: `vectorstore_chroma.ChromaVectorStore` is not in
src/.  Per the spec's vector-store collaborator contract it exposes
`existing_ids() -> set of id` and `add_documents(documents, vectors)`, an
insert-only upsert; the store state is therefore modelled as the list of
stored ids, observed through membership, and `add_documents` appends the
document's id. -/
def storeAddDocument (store : List String) (doc : VectorDocument) : List String :=
  store ++ [doc.id]

/-- Summary dictionary returned by `index_ai_jsonl_to_chroma`. -/
structure IndexSummary where
  added : Nat
  skipped_existing : Nat
  skipped_ineligible : Nat
  failed : Nat
deriving Repr, DecidableEq

/-- Result of an index batch: the ids added to the vector store in order, the
texts sent to the embedding client in order (`trace`), and either the summary
or the uncaught exception that aborted the loop. -/
structure IndexBatchOut where
  addedIds : List String
  trace : List String
  summary : Except String IndexSummary
deriving Repr, DecidableEq

/-- The batch loop of `index_ai_jsonl_to_chroma` over the AI file's lines.  A
line is `.error e` when `json.loads` raises inside `iter_jsonl` — uncaught,
aborting the batch — and `.ok (.error e)` when `ArticleAI.model_validate`
raises, which happens inside the per-record `try` and is counted under
`failed`.  The limit is tested on `added` for each parsed line; eligibility
requires status `ok` and a truthy summary; ids already in the (growing)
existing set are skipped; embedding failures are counted under `failed`. -/
def indexGo (embed : String → Except String Unit) (limit : Option Nat) :
    List String → Nat → Nat → Nat → Nat →
    List (Except String (Except String ArticleAI)) → IndexBatchOut
  | _, a, se, si, f, [] => { addedIds := [], trace := [], summary := .ok ⟨a, se, si, f⟩ }
  | existing, a, se, si, f, line :: rest =>
    match line with
    | .error e => { addedIds := [], trace := [], summary := .error e }
    | .ok v =>
      if limitReached limit a then
        { addedIds := [], trace := [], summary := .ok ⟨a, se, si, f⟩ }
      else
        match v with
        | .error _ => indexGo embed limit existing a se si (f + 1) rest
        | .ok art =>
          if art.status ≠ "ok" || !optStrTruthy art.summary then
            indexGo embed limit existing a se (si + 1) f rest
          else
            let doc := article_to_vector_doc art
            if memStr doc.id existing then
              indexGo embed limit existing a (se + 1) si f rest
            else
              match embed doc.text with
              | .error _ =>
                let r := indexGo embed limit existing a se si (f + 1) rest
                { r with trace := doc.text :: r.trace }
              | .ok _ =>
                let r := indexGo embed limit (doc.id :: existing) (a + 1) se si f rest
                { r with
                  addedIds := doc.id :: r.addedIds
                  trace := doc.text :: r.trace }

/-- Embeds `index.index_ai_jsonl_to_chroma`: load the store's existing-id set
once at the start, then run the loop over the AI file's lines.  `store0` is
the vector store's id set at batch start; after the run the store holds
`store0 ++ addedIds`. -/
def index_ai_jsonl_to_chroma (embed : String → Except String Unit)
    (aiLines : List (Except String (Except String ArticleAI)))
    (store0 : List String) (limit : Option Nat) : IndexBatchOut :=
  indexGo embed limit store0 0 0 0 0 aiLines

/-- One step of the `_find_latest_by_url` scan: skip entries with a falsy
url, keep the record when its normalized URL matches the target and it
satisfies the predicate. -/
def findLatestStep {α : Type} (getUrl : α → String) (pred : α → Bool) (target : String)
    (latest : Option α) (rec : α) : Option α :=
  if getUrl rec = "" then latest
  else if normalize_url (getUrl rec) ≠ target then latest
  else if pred rec then some rec else latest

/-- Embeds `ingest._find_latest_by_url`: scan the file in order, skip entries
with a falsy url, and keep the last record whose normalized URL matches the
target and which satisfies the predicate. -/
def findLatestByUrl {α : Type} (getUrl : α → String) (file : List α) (url : String)
    (pred : α → Bool) : Option α :=
  file.foldl (findLatestStep getUrl pred (normalize_url url)) none

/-- The raw-record predicate `ingest.ingest_url` passes to
`_find_latest_by_url`: `r.status == "ok" and bool(r.text and r.text.strip())`. -/
def ingestRawOk (r : ArticleRaw) : Bool :=
  r.status = "ok" && optStrTruthy r.text && pyStripStr ((r.text).getD "") ≠ ""

/-- The AI-record predicate `ingest.ingest_url` passes to
`_find_latest_by_url`: `a.status == "ok" and bool(a.summary and a.summary.strip())`. -/
def ingestAiOk (a : ArticleAI) : Bool :=
  a.status = "ok" && optStrTruthy a.summary && pyStripStr ((a.summary).getD "") ≠ ""

/-- The three record stores `ingest_url` touches: the raw JSONL file, the AI
JSONL file and the vector store's id set. -/
structure IngestState where
  rawFile : List ArticleRaw
  aiFile : List ArticleAI
  store : List String
deriving Repr, DecidableEq

/-- The collaborators `ingest_url` may invoke. -/
structure IngestDeps where
  scrape : ScrapeOracles
  llm : LLMOracle
  embed : String → Except String Unit

/-- One network/LLM/embedding collaborator invocation, for cost accounting. -/
inductive CallEvent where
  | fetchCall : CallEvent
  | llmCall : CallEvent
  | embedCall : CallEvent
deriving Repr, DecidableEq

/-- The result dictionary of `ingest_url`; fields absent from a given return
dictionary keep their defaults (`detail`, a free-form rendering of the failure
or of nested summaries, is not observed by any claim and is omitted). -/
structure IngestResult where
  status : String
  url : String
  skipped : Bool := false
  reason : Option String := none
  stage : Option String := none
  index_added : Option Nat := none
  index_skipped_existing : Option Nat := none
deriving Repr, DecidableEq

/-- Output of one `ingest_url` call: its return value (or uncaught exception),
the resulting file/store state, and the collaborator calls performed. -/
structure IngestOut where
  result : Except String IngestResult
  state : IngestState
  trace : List CallEvent
deriving Repr

/-- Embeds `ingest.ingest_url`: return `skipped(reason="already_analyzed")`
before any collaborator call when the normalized URL is in the AI seen set;
otherwise scrape (idempotently), look up the latest ok raw record, analyze it
(appending a failed AI record on LLM failure), look up the latest ok AI
record, and index it unless its id is already in the vector store.  The
pydantic validation error of the scrape step and an embedding-client exception
propagate uncaught. -/
def ingest_url (d : IngestDeps) (url : String) (min_chars : Nat)
    (st : IngestState) : IngestOut :=
  let norm_url := normalize_url url
  let ai_seen := load_seen_urls_ai st.aiFile
  if memStr norm_url ai_seen then
    { result := .ok { status := "ok", url := norm_url, skipped := true,
                      reason := some "already_analyzed" }
      state := st
      trace := [] }
  else
    let (appendedRaw, scrapeRes) :=
      scrape_single_url_to_jsonl d.scrape norm_url st.rawFile min_chars
    match scrapeRes with
    | .error e => { result := .error e, state := st, trace := [] }
    | .ok ssum =>
      let st := { st with rawFile := st.rawFile ++ appendedRaw }
      let tr := if ssum.skipped_existing = 1 then [] else [CallEvent.fetchCall]
      match findLatestByUrl (fun r => r.url) st.rawFile norm_url ingestRawOk with
      | none =>
        { result := .ok { status := "failed", url := norm_url, stage := some "scrape" }
          state := st
          trace := tr }
      | some raw =>
        let tr := tr ++ [CallEvent.llmCall]
        match analyze_one_article_raw d.llm raw with
        | .error e =>
          let st := { st with aiFile := st.aiFile ++ [build_failed_ai_from_raw d.llm raw e] }
          { result := .ok { status := "failed", url := norm_url, stage := some "analyze" }
            state := st
            trace := tr }
        | .ok enriched =>
          let st := { st with aiFile := st.aiFile ++ [enriched] }
          match findLatestByUrl (fun a => a.url) st.aiFile norm_url ingestAiOk with
          | none =>
            { result := .ok { status := "failed", url := norm_url, stage := some "index" }
              state := st
              trace := tr }
          | some ai =>
            if memStr norm_url st.store then
              { result := .ok { status := "ok", url := norm_url, skipped := false,
                                index_added := some 0, index_skipped_existing := some 1 }
                state := st
                trace := tr }
            else
              let doc := article_to_vector_doc ai
              let tr := tr ++ [CallEvent.embedCall]
              match d.embed doc.text with
              | .error e => { result := .error e, state := st, trace := tr }
              | .ok _ =>
                { result := .ok { status := "ok", url := norm_url, skipped := false,
                                  index_added := some 1, index_skipped_existing := some 0 }
                  state := { st with store := storeAddDocument st.store doc }
                  trace := tr }

/-! ### Concrete collaborator instances and records used in demonstrations -/

/-- A fetch collaborator whose requests always fail with a transport error
(the extraction oracles are never reached). -/
def demoFetchFail : ScrapeOracles :=
  { fetch := fun _ => .error "ConnectError: connection refused"
    trafMeta := fun _ => none
    trafExtract := fun _ => none
    soupTitle := fun _ => none }

/-- A fetch collaborator returning a fixed page whose extracted text passes a
small `min_chars` threshold. -/
def demoScrapeOk : ScrapeOracles :=
  { fetch := fun _ => .ok
      { final_url := "https://e.com/a", status_code := some 200,
        content_type := some "text/html", html := some "<html>body</html>" }
    trafMeta := fun _ => some "Title"
    trafExtract := fun _ => some "some article text"
    soupTitle := fun _ => none }

/-- An LLM collaborator that always succeeds with a fixed analysis. -/
def demoLLMOk : LLMOracle :=
  { analyze := fun _ => .ok { summary := "a summary", topics := ["a", "b", "c"] }
    model := "gpt-test" }

/-- An LLM collaborator that always raises. -/
def demoLLMFail : LLMOracle :=
  { analyze := fun _ => .error "LLM down"
    model := "gpt-test" }

/-- A raw record that is eligible for analysis. -/
def demoRawEligible : ArticleRaw :=
  { url := "https://e.com/a", text := some "body text" }

/-- An AI record that is eligible for indexing. -/
def demoAiOk : ArticleAI :=
  { url := "https://e.com/a", summary := some "a summary", topics := ["a", "b", "c"] }

/-- An embedding collaborator that always succeeds. -/
def demoEmbedOk : String → Except String Unit :=
  fun _ => .ok ()

/-- Ingest collaborators where every stage succeeds. -/
def demoDeps : IngestDeps :=
  { scrape := demoScrapeOk, llm := demoLLMOk, embed := demoEmbedOk }

/-! ### Helper lemmas -/

theorem memStr_iff {x : String} : ∀ {l : List String}, memStr x l = true ↔ x ∈ l
  | [] => by simp [memStr]
  | y :: ys => by
    by_cases h : x = y
    · simp [memStr, h]
    · simp [memStr, h, memStr_iff (l := ys)]

theorem memStr_append {x : String} :
    ∀ {l m : List String}, memStr x (l ++ m) = (memStr x l || memStr x m)
  | [], _ => by simp [memStr]
  | y :: ys, m => by
    by_cases h : x = y <;>
      simp [memStr, h, memStr_append (l := ys)]

theorem memStr_cons_self {x : String} {l : List String} (h : memStr x l = true) :
    ∀ y, memStr x (y :: l) = true := by
  intro y
  by_cases hxy : x = y <;> simp [memStr, hxy, h]

/-- Any record of a store whose url field is truthy contributes its normalized
URL to the seen set built from the url fields. -/
theorem mem_seenUrlsOfUrls {u : String} {urls : List String}
    (hmem : u ∈ urls) (hne : u ≠ "") :
    memStr (normalize_url u) (seenUrlsOfUrls urls) = true := by
  rw [memStr_iff]
  exact List.mem_map_of_mem normalize_url (List.mem_filter.mpr ⟨hmem, by simp [hne]⟩)

theorem mem_load_seen_urls_ai {a : ArticleAI} {recs : List ArticleAI}
    (hmem : a ∈ recs) (hne : a.url ≠ "") :
    memStr (normalize_url a.url) (load_seen_urls_ai recs) = true :=
  mem_seenUrlsOfUrls (List.mem_map_of_mem (fun r => r.url) hmem) hne

theorem load_seen_urls_ai_append {F G : List ArticleAI} {key : String}
    (h : memStr key (load_seen_urls_ai F) = true) :
    memStr key (load_seen_urls_ai (F ++ G)) = true := by
  unfold load_seen_urls_ai seenUrlsOfUrls at *
  rw [List.map_append, List.filter_append, List.map_append, memStr_append, h]
  rfl

/-! ### C5: normalize_url round-trips -/

/-- C5: `normalize_url` trims surrounding whitespace, strips the fragment, and
removes a single trailing slash unless the path is empty or root: the
trailing-slash and trailed-fragment forms normalize like the plain form, the
root path keeps its slash, surrounding whitespace is ignored, and only one
trailing slash is removed. -/
theorem normalize_url_roundtrips :
    normalize_url "https://a.com/x/" = normalize_url "https://a.com/x" ∧
    normalize_url "https://a.com/" = "https://a.com/" ∧
    normalize_url "https://a.com/x#frag" = normalize_url "https://a.com/x" ∧
    normalize_url " https://a.com/x " = normalize_url "https://a.com/x" ∧
    normalize_url "https://a.com/x//" = "https://a.com/x/" ∧
    normalize_url "https://a.com/x" = "https://a.com/x" := by
  decide

/-! ### C7: analyze eligibility filter -/

/-- The spec's wording of analyze eligibility: status is `ok` and the text is
non-empty after trimming (a missing text trims to empty). -/
def specAnalyzeEligible (a : ArticleRaw) : Bool :=
  a.status = "ok" && pyStripStr ((a.text).getD "") ≠ ""

theorem iter_ok_keep_eq_spec (a : ArticleRaw) :
    iter_ok_keep a = specAnalyzeEligible a := by
  unfold iter_ok_keep specAnalyzeEligible optStrTruthy
  by_cases hs : a.status = "ok"
  · rcases ht : a.text with _ | t
    · simp [hs, ht, pyStripStr, pyStrip]
    · by_cases ht0 : t = "" <;> simp [hs, ht, ht0, pyStripStr, pyStrip]
  · simp [hs]

/-- C7: the analyze eligibility filter keeps exactly the records with status
`ok` and text non-empty after trimming; an `ok` record with whitespace-only
text is excluded, and a `failed` record is excluded whatever its text. -/
theorem analyze_eligibility_filter :
    (∀ recs : List ArticleRaw,
        recs.filter iter_ok_keep = recs.filter specAnalyzeEligible) ∧
    iter_ok_keep { url := "https://a.com/x", status := "ok", text := some "   " } = false ∧
    (∀ t : Option String,
        iter_ok_keep { url := "https://a.com/x", status := "failed", text := t } = false) := by
  refine ⟨fun recs => List.filter_congr fun a _ => iter_ok_keep_eq_spec a, by decide, ?_⟩
  intro t
  simp [iter_ok_keep]

/-! ### C6: topics validation -/

/-- First-occurrence deduplication relative to an already-seen set, the spec's
reading of the `validate_topics` loop. -/
def dedupKeepFirst (seen : List String) : List String → List String
  | [] => []
  | x :: xs =>
    if memStr x seen then dedupKeepFirst seen xs
    else x :: dedupKeepFirst (x :: seen) xs

/-- The spec's description of topics cleaning: trim and lowercase each tag,
drop empties, deduplicate keeping the first occurrence. -/
def cleanTopicsSpec (v : List String) : List String :=
  dedupKeepFirst [] ((v.map fun t => pyLowerStr (pyStripStr t)).filter fun t => t ≠ "")

theorem dedupKeepFirst_nil (seen : List String) : dedupKeepFirst seen [] = [] :=
  rfl

theorem dedupKeepFirst_cons_mem {x : String} {seen : List String}
    (h : memStr x seen = true) (xs : List String) :
    dedupKeepFirst seen (x :: xs) = dedupKeepFirst seen xs := by
  simp [dedupKeepFirst, h]

theorem dedupKeepFirst_cons_new {x : String} {seen : List String}
    (h : memStr x seen = false) (xs : List String) :
    dedupKeepFirst seen (x :: xs) = x :: dedupKeepFirst (x :: seen) xs := by
  simp [dedupKeepFirst, h]

theorem dedupKeepFirst_congr : ∀ (l : List String) (s₁ s₂ : List String),
    (∀ x, memStr x s₁ = memStr x s₂) → dedupKeepFirst s₁ l = dedupKeepFirst s₂ l
  | [], _, _, _ => rfl
  | x :: xs, s₁, s₂, h => by
    by_cases hx : memStr x s₂ = true
    · rw [dedupKeepFirst_cons_mem ((h x).trans hx) xs, dedupKeepFirst_cons_mem hx xs]
      exact dedupKeepFirst_congr xs s₁ s₂ h
    · rw [Bool.not_eq_true] at hx
      rw [dedupKeepFirst_cons_new ((h x).trans hx) xs, dedupKeepFirst_cons_new hx xs]
      rw [dedupKeepFirst_congr xs (x :: s₁) (x :: s₂)
        (fun y => by by_cases hxy : y = x <;> simp [memStr, hxy, h y])]

theorem cleanTopicsLoop_eq_dedup :
    ∀ (v acc : List String),
      cleanTopicsLoop acc v =
        acc ++ dedupKeepFirst acc ((v.map fun t => pyLowerStr (pyStripStr t)).filter fun t => t ≠ "")
  | [], acc => by simp [cleanTopicsLoop, dedupKeepFirst_nil]
  | t :: ts, acc => by
    unfold cleanTopicsLoop
    simp only [List.map_cons, List.filter_cons]
    by_cases h0 : pyLowerStr (pyStripStr t) = ""
    · simp only [h0, decide_True, ne_eq, not_true_eq_false, decide_False, Bool.false_and,
        if_false, Bool.false_eq_true]
      exact cleanTopicsLoop_eq_dedup ts acc
    · by_cases hmem : memStr (pyLowerStr (pyStripStr t)) acc = true
      · simp only [h0, hmem, ne_eq, not_false_eq_true, decide_True, Bool.not_true,
          Bool.and_false, Bool.false_eq_true, if_false, if_true]
        rw [dedupKeepFirst_cons_mem hmem]
        exact cleanTopicsLoop_eq_dedup ts acc
      · rw [Bool.not_eq_true] at hmem
        simp only [h0, hmem, ne_eq, not_false_eq_true, decide_True, Bool.not_false,
          Bool.and_true, if_true]
        rw [dedupKeepFirst_cons_new hmem]
        rw [cleanTopicsLoop_eq_dedup ts (acc ++ [pyLowerStr (pyStripStr t)])]
        rw [dedupKeepFirst_congr _ (acc ++ [pyLowerStr (pyStripStr t)]) (pyLowerStr (pyStripStr t) :: acc)
          (fun y => by
            rw [memStr_append]
            by_cases hy : y = pyLowerStr (pyStripStr t) <;> simp [memStr, hy, Bool.or_comm])]
        simp

theorem dedupKeepFirst_not_seen :
    ∀ (l seen : List String) (x : String), x ∈ dedupKeepFirst seen l → memStr x seen = false
  | [], _, x, h => absurd h (List.not_mem_nil x)
  | y :: ys, seen, x, h => by
    by_cases hy : memStr y seen = true
    · rw [dedupKeepFirst_cons_mem hy ys] at h
      exact dedupKeepFirst_not_seen ys seen x h
    · rw [Bool.not_eq_true] at hy
      rw [dedupKeepFirst_cons_new hy ys] at h
      simp only [List.mem_cons] at h
      rcases h with h | h
      · exact h ▸ hy
      · have := dedupKeepFirst_not_seen ys (y :: seen) x h
        by_cases hxy : x = y
        · simp [memStr, hxy] at this
        · simpa [memStr, hxy] using this

theorem dedupKeepFirst_nodup :
    ∀ (l seen : List String), (dedupKeepFirst seen l).Nodup
  | [], _ => List.nodup_nil
  | y :: ys, seen => by
    by_cases hy : memStr y seen = true
    · rw [dedupKeepFirst_cons_mem hy ys]
      exact dedupKeepFirst_nodup ys seen
    · rw [Bool.not_eq_true] at hy
      rw [dedupKeepFirst_cons_new hy ys]
      simp only [List.nodup_cons]
      refine ⟨fun hmem => ?_, dedupKeepFirst_nodup ys (y :: seen)⟩
      have := dedupKeepFirst_not_seen ys (y :: seen) y hmem
      simp [memStr] at this

theorem dedupKeepFirst_sublist :
    ∀ (l seen : List String), (dedupKeepFirst seen l).Sublist l
  | [], _ => List.Sublist.refl []
  | y :: ys, seen => by
    by_cases hy : memStr y seen = true
    · rw [dedupKeepFirst_cons_mem hy ys]
      exact (dedupKeepFirst_sublist ys seen).cons y
    · rw [Bool.not_eq_true] at hy
      rw [dedupKeepFirst_cons_new hy ys]
      exact (dedupKeepFirst_sublist ys (y :: seen)).cons₂ y

/-- C6: `validate_topics` trims and lowercases each tag, drops empties, and
deduplicates preserving first-occurrence order (a duplicate-free sublist of
the cleaned tags); it accepts exactly when between 3 and 7 tags remain after
cleaning, and `["A", "a", "B"]` cleans to `["a", "b"]` and is rejected. -/
theorem validate_topics_spec :
    (∀ v l, validate_topics v = .ok l →
        l = cleanTopicsSpec v ∧ 3 ≤ l.length ∧ l.length ≤ 7 ∧ l.Nodup ∧
          l.Sublist ((v.map fun t => pyLowerStr (pyStripStr t)).filter fun t => t ≠ "")) ∧
    (∀ v, (validate_topics v).isOk = true ↔
        (3 ≤ (cleanTopicsSpec v).length ∧ (cleanTopicsSpec v).length ≤ 7)) ∧
    cleanTopicsLoop [] ["A", "a", "B"] = ["a", "b"] ∧
    validate_topics ["A", "a", "B"] = .error "topics must contain between 3 and 7 items" := by
  have hclean : ∀ v, cleanTopicsLoop [] v = cleanTopicsSpec v := by
    intro v
    rw [cleanTopicsLoop_eq_dedup v []]
    rfl
  refine ⟨?_, ?_, by decide, by decide⟩
  · intro v l h
    unfold validate_topics at h
    rw [hclean v] at h
    by_cases hlen : (3 ≤ (cleanTopicsSpec v).length ∧ (cleanTopicsSpec v).length ≤ 7)
    · rw [if_pos (by simp [hlen.1, hlen.2])] at h
      cases h
      exact ⟨rfl, hlen.1, hlen.2, dedupKeepFirst_nodup _ _, dedupKeepFirst_sublist _ _⟩
    · rw [if_neg (by
        intro hb
        simp only [Bool.and_eq_true, decide_eq_true_eq] at hb
        exact hlen hb)] at h
      cases h
  · intro v
    unfold validate_topics
    rw [hclean v]
    by_cases hlen : (3 ≤ (cleanTopicsSpec v).length ∧ (cleanTopicsSpec v).length ≤ 7)
    · rw [if_pos (by simp [hlen.1, hlen.2])]
      simp [Except.isOk, Except.toBool, hlen.1, hlen.2]
    · rw [if_neg (by
        intro hb
        simp only [Bool.and_eq_true, decide_eq_true_eq] at hb
        exact hlen hb)]
      simp only [Except.isOk, Except.toBool]
      constructor
      · intro h
        cases h
      · intro h
        exact absurd h hlen

/-- Witness for C6 at a concrete accepted input. -/
theorem validate_topics_spec_witness :
    validate_topics ["Tech", " AI ", "ai", "Economy"] = .ok ["tech", "ai", "economy"] ∧
    (["tech", "ai", "economy"] = cleanTopicsSpec ["Tech", " AI ", "ai", "Economy"] ∧
      3 ≤ (["tech", "ai", "economy"] : List String).length ∧
      (["tech", "ai", "economy"] : List String).length ≤ 7 ∧
      (["tech", "ai", "economy"] : List String).Nodup ∧
      List.Sublist ["tech", "ai", "economy"]
        (((["Tech", " AI ", "ai", "Economy"] : List String).map
            fun t => pyLowerStr (pyStripStr t)).filter fun t => t ≠ "")) :=
  ⟨by decide,
   validate_topics_spec.1 ["Tech", " AI ", "ai", "Economy"] ["tech", "ai", "economy"] (by decide)⟩

/-! ### C8: analyze failure persistence and the attempt-once policy -/

theorem analyzeGo_nil (llm : LLMOracle) (limit : Option Nat) (already : List String)
    (p f s : Nat) :
    analyzeGo llm limit already p f s [] =
      { appended := [], trace := [], summary := .ok ⟨p, f, s⟩ } :=
  rfl

theorem analyzeGo_badline (llm : LLMOracle) (limit : Option Nat) (already : List String)
    (p f s : Nat) (e : String) (rest : List (Except String ArticleRaw)) :
    analyzeGo llm limit already p f s (.error e :: rest) =
      { appended := [], trace := [], summary := .error e } :=
  rfl

theorem analyzeGo_skip_ineligible {a : ArticleRaw} (llm : LLMOracle) (limit : Option Nat)
    (already : List String) (p f s : Nat) (rest : List (Except String ArticleRaw))
    (h : iter_ok_keep a = false) :
    analyzeGo llm limit already p f s (.ok a :: rest) =
      analyzeGo llm limit already p f s rest := by
  simp [analyzeGo, h]

theorem analyzeGo_break {a : ArticleRaw} (llm : LLMOracle) (limit : Option Nat)
    (already : List String) (p f s : Nat) (rest : List (Except String ArticleRaw))
    (h : iter_ok_keep a = true) (hl : limitReached limit p = true) :
    analyzeGo llm limit already p f s (.ok a :: rest) =
      { appended := [], trace := [], summary := .ok ⟨p, f, s⟩ } := by
  simp [analyzeGo, h, hl]

theorem analyzeGo_skip_seen {a : ArticleRaw} (llm : LLMOracle) (limit : Option Nat)
    (already : List String) (p f s : Nat) (rest : List (Except String ArticleRaw))
    (h : iter_ok_keep a = true) (hl : limitReached limit p = false)
    (hs : memStr (normalize_url a.url) already = true) :
    analyzeGo llm limit already p f s (.ok a :: rest) =
      analyzeGo llm limit already p f (s + 1) rest := by
  simp [analyzeGo, h, hl, hs]

theorem analyzeGo_llm_ok {a : ArticleRaw} {an : LLMAnalysis} (llm : LLMOracle)
    (limit : Option Nat) (already : List String) (p f s : Nat)
    (rest : List (Except String ArticleRaw))
    (h : iter_ok_keep a = true) (hl : limitReached limit p = false)
    (hs : memStr (normalize_url a.url) already = false)
    (hok : llm.analyze a = .ok an) :
    analyzeGo llm limit already p f s (.ok a :: rest) =
      (let r := analyzeGo llm limit (normalize_url a.url :: already) (p + 1) f s rest
       { appended :=
           { toArticleRaw := a, summary := some an.summary, topics := an.topics,
             llm_model := some llm.model } :: r.appended
         trace := a :: r.trace
         summary := r.summary }) := by
  simp [analyzeGo, h, hl, hs, analyze_one_article_raw, hok, Except.map]

theorem analyzeGo_llm_fail {a : ArticleRaw} {e : String} (llm : LLMOracle)
    (limit : Option Nat) (already : List String) (p f s : Nat)
    (rest : List (Except String ArticleRaw))
    (h : iter_ok_keep a = true) (hl : limitReached limit p = false)
    (hs : memStr (normalize_url a.url) already = false)
    (hfail : llm.analyze a = .error e) :
    analyzeGo llm limit already p f s (.ok a :: rest) =
      (let r := analyzeGo llm limit (normalize_url a.url :: already) p (f + 1) s rest
       { appended := build_failed_ai_from_raw llm a e :: r.appended
         trace := a :: r.trace
         summary := r.summary }) := by
  simp [analyzeGo, h, hl, hs, analyze_one_article_raw, hfail, Except.map]

/-- In any analyze batch, a traced article whose LLM call fails gets the
corresponding failed AI record appended to the output file. -/
theorem analyzeGo_failed_appended (llm : LLMOracle) (limit : Option Nat) :
    ∀ (lines : List (Except String ArticleRaw)) (already : List String) (p f s : Nat)
      (art : ArticleRaw) (e : String),
      art ∈ (analyzeGo llm limit already p f s lines).trace →
      llm.analyze art = .error e →
      build_failed_ai_from_raw llm art e ∈ (analyzeGo llm limit already p f s lines).appended
  | [], already, p, f, s, art, e, htr, _ => by
    rw [analyzeGo_nil] at htr
    exact absurd htr (List.not_mem_nil art)
  | .error e' :: rest, already, p, f, s, art, e, htr, _ => by
    rw [analyzeGo_badline] at htr
    exact absurd htr (List.not_mem_nil art)
  | .ok a :: rest, already, p, f, s, art, e, htr, hfail => by
    by_cases hk : iter_ok_keep a = true
    · by_cases hl : limitReached limit p = true
      · rw [analyzeGo_break llm limit already p f s rest hk hl] at htr
        exact absurd htr (List.not_mem_nil art)
      · rw [Bool.not_eq_true] at hl
        by_cases hs : memStr (normalize_url a.url) already = true
        · rw [analyzeGo_skip_seen llm limit already p f s rest hk hl hs] at htr ⊢
          exact analyzeGo_failed_appended llm limit rest already p f (s + 1) art e htr hfail
        · rw [Bool.not_eq_true] at hs
          cases hllm : llm.analyze a with
          | ok an =>
            rw [analyzeGo_llm_ok llm limit already p f s rest hk hl hs hllm] at htr ⊢
            simp only [List.mem_cons] at htr ⊢
            rcases htr with rfl | htr
            · rw [hllm] at hfail
              cases hfail
            · exact Or.inr
                (analyzeGo_failed_appended llm limit rest _ (p + 1) f s art e htr hfail)
          | error e' =>
            rw [analyzeGo_llm_fail llm limit already p f s rest hk hl hs hllm] at htr ⊢
            simp only [List.mem_cons] at htr ⊢
            rcases htr with rfl | htr
            · rw [hllm] at hfail
              cases hfail
              exact Or.inl rfl
            · exact Or.inr
                (analyzeGo_failed_appended llm limit rest _ p (f + 1) s art e htr hfail)
    · rw [Bool.not_eq_true] at hk
      rw [analyzeGo_skip_ineligible llm limit already p f s rest hk] at htr ⊢
      exact analyzeGo_failed_appended llm limit rest already p f s art e htr hfail

/-- In any analyze batch, no article whose normalized URL is already in the
seen set at loop start is ever sent to the LLM. -/
theorem analyzeGo_seen_never_traced (llm : LLMOracle) (limit : Option Nat) :
    ∀ (lines : List (Except String ArticleRaw)) (already : List String) (p f s : Nat)
      (key : String), memStr key already = true →
      ∀ art ∈ (analyzeGo llm limit already p f s lines).trace, normalize_url art.url ≠ key
  | [], already, p, f, s, key, hkey, art, htr => by
    rw [analyzeGo_nil] at htr
    exact absurd htr (List.not_mem_nil art)
  | .error e' :: rest, already, p, f, s, key, hkey, art, htr => by
    rw [analyzeGo_badline] at htr
    exact absurd htr (List.not_mem_nil art)
  | .ok a :: rest, already, p, f, s, key, hkey, art, htr => by
    by_cases hk : iter_ok_keep a = true
    · by_cases hl : limitReached limit p = true
      · rw [analyzeGo_break llm limit already p f s rest hk hl] at htr
        exact absurd htr (List.not_mem_nil art)
      · rw [Bool.not_eq_true] at hl
        by_cases hs : memStr (normalize_url a.url) already = true
        · rw [analyzeGo_skip_seen llm limit already p f s rest hk hl hs] at htr
          exact analyzeGo_seen_never_traced llm limit rest already p f (s + 1) key hkey art htr
        · rw [Bool.not_eq_true] at hs
          cases hllm : llm.analyze a with
          | ok an =>
            rw [analyzeGo_llm_ok llm limit already p f s rest hk hl hs hllm] at htr
            simp only [List.mem_cons] at htr
            rcases htr with rfl | htr
            · intro hkeq
              rw [hkeq] at hs
              rw [hs] at hkey
              cases hkey
            · exact analyzeGo_seen_never_traced llm limit rest _ (p + 1) f s key
                (memStr_cons_self hkey _) art htr
          | error e' =>
            rw [analyzeGo_llm_fail llm limit already p f s rest hk hl hs hllm] at htr
            simp only [List.mem_cons] at htr
            rcases htr with rfl | htr
            · intro hkeq
              rw [hkeq] at hs
              rw [hs] at hkey
              cases hkey
            · exact analyzeGo_seen_never_traced llm limit rest _ p (f + 1) s key
                (memStr_cons_self hkey _) art htr
    · rw [Bool.not_eq_true] at hk
      rw [analyzeGo_skip_ineligible llm limit already p f s rest hk] at htr
      exact analyzeGo_seen_never_traced llm limit rest already p f s key hkey art htr

/-- Every record an analyze batch appends carries a raw article that was
traced (sent to the LLM). -/
theorem analyzeGo_appended_from_trace (llm : LLMOracle) (limit : Option Nat) :
    ∀ (lines : List (Except String ArticleRaw)) (already : List String) (p f s : Nat)
      (rec : ArticleAI), rec ∈ (analyzeGo llm limit already p f s lines).appended →
      rec.toArticleRaw.url ∈ ((analyzeGo llm limit already p f s lines).trace).map
        (fun a => a.url)
  | [], already, p, f, s, rec, hmem => by
    rw [analyzeGo_nil] at hmem
    exact absurd hmem (List.not_mem_nil rec)
  | .error e' :: rest, already, p, f, s, rec, hmem => by
    rw [analyzeGo_badline] at hmem
    exact absurd hmem (List.not_mem_nil rec)
  | .ok a :: rest, already, p, f, s, rec, hmem => by
    by_cases hk : iter_ok_keep a = true
    · by_cases hl : limitReached limit p = true
      · rw [analyzeGo_break llm limit already p f s rest hk hl] at hmem
        exact absurd hmem (List.not_mem_nil rec)
      · rw [Bool.not_eq_true] at hl
        by_cases hs : memStr (normalize_url a.url) already = true
        · rw [analyzeGo_skip_seen llm limit already p f s rest hk hl hs] at hmem ⊢
          exact analyzeGo_appended_from_trace llm limit rest already p f (s + 1) rec hmem
        · rw [Bool.not_eq_true] at hs
          cases hllm : llm.analyze a with
          | ok an =>
            rw [analyzeGo_llm_ok llm limit already p f s rest hk hl hs hllm] at hmem ⊢
            simp only [List.mem_cons, List.map_cons] at hmem ⊢
            rcases hmem with rfl | hmem
            · exact Or.inl rfl
            · exact Or.inr (analyzeGo_appended_from_trace llm limit rest _ (p + 1) f s rec hmem)
          | error e' =>
            rw [analyzeGo_llm_fail llm limit already p f s rest hk hl hs hllm] at hmem ⊢
            simp only [List.mem_cons, List.map_cons] at hmem ⊢
            rcases hmem with rfl | hmem
            · exact Or.inl rfl
            · exact Or.inr (analyzeGo_appended_from_trace llm limit rest _ p (f + 1) s rec hmem)
    · rw [Bool.not_eq_true] at hk
      rw [analyzeGo_skip_ineligible llm limit already p f s rest hk] at hmem ⊢
      exact analyzeGo_appended_from_trace llm limit rest already p f s rec hmem

/-- C8: when the LLM analysis of an eligible raw record fails, the batch
appends the corresponding failed AI record to the output file; any appended
record's canonical URL lands in the seen set loaded from that file
(irrespective of record status); a URL in the seen set of the output file is
never sent to the LLM by any analyze run over that file; and the seen set only
grows as the file grows — together, the attempt-once policy. -/
theorem analyze_failed_attempt_once (llm : LLMOracle)
    (rawLines : List (Except String ArticleRaw)) (outFile : List ArticleAI)
    (limit : Option Nat) :
    (∀ art e, art ∈ (analyze_raw_to_ai_jsonl llm rawLines outFile limit).trace →
        llm.analyze art = .error e →
        build_failed_ai_from_raw llm art e ∈
          (analyze_raw_to_ai_jsonl llm rawLines outFile limit).appended) ∧
    (∀ a : ArticleAI, a ∈ (analyze_raw_to_ai_jsonl llm rawLines outFile limit).appended →
        a.url ≠ "" →
        memStr (normalize_url a.url)
          (load_seen_urls_ai
            (outFile ++ (analyze_raw_to_ai_jsonl llm rawLines outFile limit).appended)) = true) ∧
    (∀ (key : String) (F : List ArticleAI) (lines' : List (Except String ArticleRaw))
        (limit' : Option Nat),
        memStr key (load_seen_urls_ai F) = true →
        ∀ art ∈ (analyze_raw_to_ai_jsonl llm lines' F limit').trace,
          normalize_url art.url ≠ key) ∧
    (∀ (F G : List ArticleAI) (key : String), memStr key (load_seen_urls_ai F) = true →
        memStr key (load_seen_urls_ai (F ++ G)) = true) := by
  refine ⟨?_, ?_, ?_, ?_⟩
  · intro art e htr hfail
    exact analyzeGo_failed_appended llm limit rawLines _ 0 0 0 art e htr hfail
  · intro a hmem hne
    exact mem_load_seen_urls_ai (List.mem_append_right outFile hmem) hne
  · intro key F lines' limit' hkey art htr
    exact analyzeGo_seen_never_traced llm limit' lines' _ 0 0 0 key hkey art htr
  · intro F G key h
    exact load_seen_urls_ai_append h

/-- Witness for C8: a failing LLM run over one eligible record appends the
failed record, and a second run over the output file never calls the LLM on
that URL. -/
theorem analyze_failed_attempt_once_witness :
    build_failed_ai_from_raw demoLLMFail demoRawEligible "LLM down" ∈
      (analyze_raw_to_ai_jsonl demoLLMFail [.ok demoRawEligible] [] none).appended ∧
    (∀ art ∈ (analyze_raw_to_ai_jsonl demoLLMFail [.ok demoRawEligible]
        (analyze_raw_to_ai_jsonl demoLLMFail [.ok demoRawEligible] [] none).appended
        none).trace,
      normalize_url art.url ≠ normalize_url "https://e.com/a") :=
  ⟨(analyze_failed_attempt_once demoLLMFail [.ok demoRawEligible] [] none).1
      demoRawEligible "LLM down" (by decide) rfl,
   (analyze_failed_attempt_once demoLLMFail [.ok demoRawEligible]
        (analyze_raw_to_ai_jsonl demoLLMFail [.ok demoRawEligible] [] none).appended
        none).2.2.1
      (normalize_url "https://e.com/a")
      (analyze_raw_to_ai_jsonl demoLLMFail [.ok demoRawEligible] [] none).appended
      [.ok demoRawEligible] none (by decide)⟩

/-! ### C9: index stage upserts each id at most once -/

theorem indexGo_nil (embed : String → Except String Unit) (limit : Option Nat)
    (existing : List String) (a se si f : Nat) :
    indexGo embed limit existing a se si f [] =
      { addedIds := [], trace := [], summary := .ok ⟨a, se, si, f⟩ } :=
  rfl

theorem indexGo_badline (embed : String → Except String Unit) (limit : Option Nat)
    (existing : List String) (a se si f : Nat) (e : String)
    (rest : List (Except String (Except String ArticleAI))) :
    indexGo embed limit existing a se si f (.error e :: rest) =
      { addedIds := [], trace := [], summary := .error e } :=
  rfl

theorem indexGo_break (embed : String → Except String Unit) (limit : Option Nat)
    (existing : List String) (a se si f : Nat) (v : Except String ArticleAI)
    (rest : List (Except String (Except String ArticleAI)))
    (hl : limitReached limit a = true) :
    indexGo embed limit existing a se si f (.ok v :: rest) =
      { addedIds := [], trace := [], summary := .ok ⟨a, se, si, f⟩ } := by
  simp [indexGo, hl]

theorem indexGo_invalid (embed : String → Except String Unit) (limit : Option Nat)
    (existing : List String) (a se si f : Nat) (e : String)
    (rest : List (Except String (Except String ArticleAI)))
    (hl : limitReached limit a = false) :
    indexGo embed limit existing a se si f (.ok (.error e) :: rest) =
      indexGo embed limit existing a se si (f + 1) rest := by
  simp [indexGo, hl]

theorem indexGo_ineligible {art : ArticleAI} (embed : String → Except String Unit)
    (limit : Option Nat) (existing : List String) (a se si f : Nat)
    (rest : List (Except String (Except String ArticleAI)))
    (hl : limitReached limit a = false)
    (hel : (art.status ≠ "ok" || !optStrTruthy art.summary) = true) :
    indexGo embed limit existing a se si f (.ok (.ok art) :: rest) =
      indexGo embed limit existing a se (si + 1) f rest := by
  simp only [indexGo, hl, Bool.false_eq_true, if_false, hel, if_true]

theorem indexGo_skip_existing {art : ArticleAI} (embed : String → Except String Unit)
    (limit : Option Nat) (existing : List String) (a se si f : Nat)
    (rest : List (Except String (Except String ArticleAI)))
    (hl : limitReached limit a = false)
    (hel : (art.status ≠ "ok" || !optStrTruthy art.summary) = false)
    (hex : memStr (article_to_vector_doc art).id existing = true) :
    indexGo embed limit existing a se si f (.ok (.ok art) :: rest) =
      indexGo embed limit existing a (se + 1) si f rest := by
  simp only [indexGo, hl, Bool.false_eq_true, if_false, hel, hex, if_true]

theorem indexGo_embed_fail {art : ArticleAI} {e : String}
    (embed : String → Except String Unit) (limit : Option Nat)
    (existing : List String) (a se si f : Nat)
    (rest : List (Except String (Except String ArticleAI)))
    (hl : limitReached limit a = false)
    (hel : (art.status ≠ "ok" || !optStrTruthy art.summary) = false)
    (hex : memStr (article_to_vector_doc art).id existing = false)
    (hemb : embed (article_to_vector_doc art).text = .error e) :
    indexGo embed limit existing a se si f (.ok (.ok art) :: rest) =
      (let r := indexGo embed limit existing a se si (f + 1) rest
       { r with trace := (article_to_vector_doc art).text :: r.trace }) := by
  simp only [indexGo, hl, Bool.false_eq_true, if_false, hel, hex, hemb]

theorem indexGo_add {art : ArticleAI} (embed : String → Except String Unit)
    (limit : Option Nat) (existing : List String) (a se si f : Nat)
    (rest : List (Except String (Except String ArticleAI)))
    (hl : limitReached limit a = false)
    (hel : (art.status ≠ "ok" || !optStrTruthy art.summary) = false)
    (hex : memStr (article_to_vector_doc art).id existing = false)
    (hemb : embed (article_to_vector_doc art).text = .ok ()) :
    indexGo embed limit existing a se si f (.ok (.ok art) :: rest) =
      (let r := indexGo embed limit ((article_to_vector_doc art).id :: existing)
          (a + 1) se si f rest
       { r with
         addedIds := (article_to_vector_doc art).id :: r.addedIds
         trace := (article_to_vector_doc art).text :: r.trace }) := by
  simp only [indexGo, hl, Bool.false_eq_true, if_false, hel, hex, hemb]

/-- In any index batch, the ids handed to the store are pairwise distinct and
none of them was in the existing-id set at loop entry. -/
theorem indexGo_addedIds_fresh (embed : String → Except String Unit) (limit : Option Nat) :
    ∀ (lines : List (Except String (Except String ArticleAI)))
      (existing : List String) (a se si f : Nat),
      (∀ id ∈ (indexGo embed limit existing a se si f lines).addedIds,
          memStr id existing = false) ∧
      (indexGo embed limit existing a se si f lines).addedIds.Nodup
  | [], existing, a, se, si, f => by
    rw [indexGo_nil]
    exact ⟨fun id h => absurd h (List.not_mem_nil id), List.nodup_nil⟩
  | .error e :: rest, existing, a, se, si, f => by
    rw [indexGo_badline]
    exact ⟨fun id h => absurd h (List.not_mem_nil id), List.nodup_nil⟩
  | .ok v :: rest, existing, a, se, si, f => by
    by_cases hl : limitReached limit a = true
    · rw [indexGo_break embed limit existing a se si f v rest hl]
      exact ⟨fun id h => absurd h (List.not_mem_nil id), List.nodup_nil⟩
    · rw [Bool.not_eq_true] at hl
      cases v with
      | error e =>
        rw [indexGo_invalid embed limit existing a se si f e rest hl]
        exact indexGo_addedIds_fresh embed limit rest existing a se si (f + 1)
      | ok art =>
        by_cases hel : (art.status ≠ "ok" || !optStrTruthy art.summary) = true
        · rw [indexGo_ineligible embed limit existing a se si f rest hl hel]
          exact indexGo_addedIds_fresh embed limit rest existing a se (si + 1) f
        · rw [Bool.not_eq_true] at hel
          by_cases hex : memStr (article_to_vector_doc art).id existing = true
          · rw [indexGo_skip_existing embed limit existing a se si f rest hl hel hex]
            exact indexGo_addedIds_fresh embed limit rest existing a (se + 1) si f
          · rw [Bool.not_eq_true] at hex
            cases hemb : embed (article_to_vector_doc art).text with
            | error e =>
              rw [indexGo_embed_fail embed limit existing a se si f rest hl hel hex hemb]
              exact indexGo_addedIds_fresh embed limit rest existing a se si (f + 1)
            | ok u =>
              cases u
              rw [indexGo_add embed limit existing a se si f rest hl hel hex hemb]
              have ih := indexGo_addedIds_fresh embed limit rest
                ((article_to_vector_doc art).id :: existing) (a + 1) se si f
              simp only [List.mem_cons, List.nodup_cons]
              refine ⟨fun id h => ?_, fun h => ?_, ?_⟩
              · rcases h with rfl | h
                · exact hex
                · have := ih.1 id h
                  by_cases hid : id = (article_to_vector_doc art).id
                  · simp [memStr, hid] at this
                  · simpa [memStr, hid] using this
              · have := ih.1 _ h
                simp [memStr] at this
              · exact ih.2

/-- With no limit, a second pass whose existing-id set covers both the first
pass's entry set and everything the first pass added adds nothing. -/
theorem indexGo_second_run (embed : String → Except String Unit) :
    ∀ (lines : List (Except String (Except String ArticleAI)))
      (E₁ E₂ : List String) (a₁ se₁ si₁ f₁ a₂ se₂ si₂ f₂ : Nat),
      (∀ x, memStr x E₁ = true → memStr x E₂ = true) →
      (∀ x ∈ (indexGo embed none E₁ a₁ se₁ si₁ f₁ lines).addedIds,
          memStr x E₂ = true) →
      (indexGo embed none E₂ a₂ se₂ si₂ f₂ lines).addedIds = []
  | [], E₁, E₂, a₁, se₁, si₁, f₁, a₂, se₂, si₂, f₂, hsub, hadd => by
    rw [indexGo_nil]
  | .error e :: rest, E₁, E₂, a₁, se₁, si₁, f₁, a₂, se₂, si₂, f₂, hsub, hadd => by
    rw [indexGo_badline]
  | .ok v :: rest, E₁, E₂, a₁, se₁, si₁, f₁, a₂, se₂, si₂, f₂, hsub, hadd => by
    have hl₁ : limitReached none a₁ = false := rfl
    have hl₂ : limitReached none a₂ = false := rfl
    cases v with
    | error e =>
      rw [indexGo_invalid embed none E₂ a₂ se₂ si₂ f₂ e rest hl₂]
      rw [indexGo_invalid embed none E₁ a₁ se₁ si₁ f₁ e rest hl₁] at hadd
      exact indexGo_second_run embed rest E₁ E₂ a₁ se₁ si₁ (f₁ + 1) a₂ se₂ si₂ (f₂ + 1)
        hsub hadd
    | ok art =>
      by_cases hel : (art.status ≠ "ok" || !optStrTruthy art.summary) = true
      · rw [indexGo_ineligible embed none E₂ a₂ se₂ si₂ f₂ rest hl₂ hel]
        rw [indexGo_ineligible embed none E₁ a₁ se₁ si₁ f₁ rest hl₁ hel] at hadd
        exact indexGo_second_run embed rest E₁ E₂ a₁ se₁ (si₁ + 1) f₁ a₂ se₂ (si₂ + 1) f₂
          hsub hadd
      · rw [Bool.not_eq_true] at hel
        by_cases hex₁ : memStr (article_to_vector_doc art).id E₁ = true
        · have hex₂ := hsub _ hex₁
          rw [indexGo_skip_existing embed none E₂ a₂ se₂ si₂ f₂ rest hl₂ hel hex₂]
          rw [indexGo_skip_existing embed none E₁ a₁ se₁ si₁ f₁ rest hl₁ hel hex₁] at hadd
          exact indexGo_second_run embed rest E₁ E₂ a₁ (se₁ + 1) si₁ f₁ a₂ (se₂ + 1) si₂ f₂
            hsub hadd
        · rw [Bool.not_eq_true] at hex₁
          cases hemb : embed (article_to_vector_doc art).text with
          | ok u =>
            cases u
            rw [indexGo_add embed none E₁ a₁ se₁ si₁ f₁ rest hl₁ hel hex₁ hemb] at hadd
            simp only [List.mem_cons] at hadd
            have hex₂ : memStr (article_to_vector_doc art).id E₂ = true :=
              hadd _ (Or.inl rfl)
            rw [indexGo_skip_existing embed none E₂ a₂ se₂ si₂ f₂ rest hl₂ hel hex₂]
            refine indexGo_second_run embed rest ((article_to_vector_doc art).id :: E₁) E₂
              (a₁ + 1) se₁ si₁ f₁ a₂ (se₂ + 1) si₂ f₂ ?_ ?_
            · intro x hx
              by_cases hid : x = (article_to_vector_doc art).id
              · exact hid ▸ hex₂
              · exact hsub x (by simpa [memStr, hid] using hx)
            · intro x hx
              exact hadd x (Or.inr hx)
          | error e =>
            rw [indexGo_embed_fail embed none E₁ a₁ se₁ si₁ f₁ rest hl₁ hel hex₁ hemb] at hadd
            by_cases hex₂ : memStr (article_to_vector_doc art).id E₂ = true
            · rw [indexGo_skip_existing embed none E₂ a₂ se₂ si₂ f₂ rest hl₂ hel hex₂]
              exact indexGo_second_run embed rest E₁ E₂ a₁ se₁ si₁ (f₁ + 1)
                a₂ (se₂ + 1) si₂ f₂ hsub hadd
            · rw [Bool.not_eq_true] at hex₂
              rw [indexGo_embed_fail embed none E₂ a₂ se₂ si₂ f₂ rest hl₂ hel hex₂ hemb]
              exact indexGo_second_run embed rest E₁ E₂ a₁ se₁ si₁ (f₁ + 1)
                a₂ se₂ si₂ (f₂ + 1) hsub hadd

/-- The `added` count of a completed index batch equals the entry count plus
the number of ids handed to the store. -/
theorem indexGo_added_count (embed : String → Except String Unit) (limit : Option Nat) :
    ∀ (lines : List (Except String (Except String ArticleAI)))
      (existing : List String) (a se si f : Nat) (s : IndexSummary),
      (indexGo embed limit existing a se si f lines).summary = .ok s →
      s.added = a + (indexGo embed limit existing a se si f lines).addedIds.length
  | [], existing, a, se, si, f, s, h => by
    rw [indexGo_nil] at h ⊢
    cases h
    rfl
  | .error e :: rest, existing, a, se, si, f, s, h => by
    rw [indexGo_badline] at h
    cases h
  | .ok v :: rest, existing, a, se, si, f, s, h => by
    by_cases hl : limitReached limit a = true
    · rw [indexGo_break embed limit existing a se si f v rest hl] at h ⊢
      cases h
      rfl
    · rw [Bool.not_eq_true] at hl
      cases v with
      | error e =>
        rw [indexGo_invalid embed limit existing a se si f e rest hl] at h ⊢
        exact indexGo_added_count embed limit rest existing a se si (f + 1) s h
      | ok art =>
        by_cases hel : (art.status ≠ "ok" || !optStrTruthy art.summary) = true
        · rw [indexGo_ineligible embed limit existing a se si f rest hl hel] at h ⊢
          exact indexGo_added_count embed limit rest existing a se (si + 1) f s h
        · rw [Bool.not_eq_true] at hel
          by_cases hex : memStr (article_to_vector_doc art).id existing = true
          · rw [indexGo_skip_existing embed limit existing a se si f rest hl hel hex] at h ⊢
            exact indexGo_added_count embed limit rest existing a (se + 1) si f s h
          · rw [Bool.not_eq_true] at hex
            cases hemb : embed (article_to_vector_doc art).text with
            | error e =>
              rw [indexGo_embed_fail embed limit existing a se si f rest hl hel hex hemb] at h ⊢
              exact indexGo_added_count embed limit rest existing a se si (f + 1) s h
            | ok u =>
              cases u
              rw [indexGo_add embed limit existing a se si f rest hl hel hex hemb] at h ⊢
              simp only [List.length_cons]
              have := indexGo_added_count embed limit rest
                ((article_to_vector_doc art).id :: existing) (a + 1) se si f s h
              omega

/-- C9: every index batch adds pairwise-distinct ids, none of which was in
the store's id set loaded at batch start; and rerunning the batch (no limit)
over the same AI file against the store grown by the first run's additions
adds zero documents. -/
theorem index_upsert_at_most_once (embed : String → Except String Unit)
    (aiLines : List (Except String (Except String ArticleAI))) (store0 : List String) :
    (∀ limit,
        (∀ id ∈ (index_ai_jsonl_to_chroma embed aiLines store0 limit).addedIds,
            memStr id store0 = false) ∧
        (index_ai_jsonl_to_chroma embed aiLines store0 limit).addedIds.Nodup) ∧
    (index_ai_jsonl_to_chroma embed aiLines
        (store0 ++ (index_ai_jsonl_to_chroma embed aiLines store0 none).addedIds)
        none).addedIds = [] ∧
    (∀ s, (index_ai_jsonl_to_chroma embed aiLines
        (store0 ++ (index_ai_jsonl_to_chroma embed aiLines store0 none).addedIds)
        none).summary = .ok s → s.added = 0) := by
  have hsecond :
      (index_ai_jsonl_to_chroma embed aiLines
        (store0 ++ (index_ai_jsonl_to_chroma embed aiLines store0 none).addedIds)
        none).addedIds = [] := by
    refine indexGo_second_run embed aiLines store0 _ 0 0 0 0 0 0 0 0 ?_ ?_
    · intro x hx
      rw [memStr_append, hx]
      rfl
    · intro x hx
      rw [memStr_append]
      have : memStr x (index_ai_jsonl_to_chroma embed aiLines store0 none).addedIds = true :=
        memStr_iff.mpr hx
      rw [this]
      simp
  refine ⟨fun limit => ⟨fun id h => ?_, ?_⟩, hsecond, fun s h => ?_⟩
  · exact (indexGo_addedIds_fresh embed limit aiLines store0 0 0 0 0).1 id h
  · exact (indexGo_addedIds_fresh embed limit aiLines store0 0 0 0 0).2
  · have := indexGo_added_count embed none aiLines
      (store0 ++ (index_ai_jsonl_to_chroma embed aiLines store0 none).addedIds) 0 0 0 0 s h
    rw [index_ai_jsonl_to_chroma] at hsecond
    rw [this, hsecond]
    rfl

/-- Witness for C9: indexing one eligible AI record adds its id once, and a
rerun against the grown store adds zero documents. -/
theorem index_upsert_at_most_once_witness :
    (index_ai_jsonl_to_chroma demoEmbedOk [.ok (.ok demoAiOk)] [] none).addedIds.Nodup ∧
    (index_ai_jsonl_to_chroma demoEmbedOk [.ok (.ok demoAiOk)]
        ([] ++ (index_ai_jsonl_to_chroma demoEmbedOk [.ok (.ok demoAiOk)] [] none).addedIds)
        none).addedIds = [] ∧
    IndexSummary.added
      { added := 0, skipped_existing := 1, skipped_ineligible := 0, failed := 0 } = 0 :=
  ⟨((index_upsert_at_most_once demoEmbedOk [.ok (.ok demoAiOk)] []).1 none).2,
   (index_upsert_at_most_once demoEmbedOk [.ok (.ok demoAiOk)] []).2.1,
   (index_upsert_at_most_once demoEmbedOk [.ok (.ok demoAiOk)] []).2.2
     { added := 0, skipped_existing := 1, skipped_ineligible := 0, failed := 0 }
     (by decide)⟩

/-! ### C1 and C2: batch loop error containment and the limit semantics -/

theorem scrapeGo_nil (scrapeOne : String → Except String ArticleRaw) (seen : List String) :
    scrapeGo scrapeOne seen [] =
      { records := [], okCount := 0, failedCount := 0, skippedCount := 0, err := none } :=
  rfl

theorem scrapeGo_seen {url : String} (scrapeOne : String → Except String ArticleRaw)
    (seen : List String) (rest : List String) (hs : memStr url seen = true) :
    scrapeGo scrapeOne seen (url :: rest) =
      (let r := scrapeGo scrapeOne seen rest
       { r with skippedCount := r.skippedCount + 1 }) := by
  simp [scrapeGo, hs]

theorem scrapeGo_abort {url e : String} (scrapeOne : String → Except String ArticleRaw)
    (seen : List String) (rest : List String) (hs : memStr url seen = false)
    (he : scrapeOne url = .error e) :
    scrapeGo scrapeOne seen (url :: rest) =
      { records := [], okCount := 0, failedCount := 0, skippedCount := 0,
        err := some e } := by
  simp [scrapeGo, hs, he]

theorem scrapeGo_rec {url : String} {rec : ArticleRaw}
    (scrapeOne : String → Except String ArticleRaw)
    (seen : List String) (rest : List String)
    (hs : memStr url seen = false) (hr : scrapeOne url = .ok rec) :
    scrapeGo scrapeOne seen (url :: rest) =
      (let r := scrapeGo scrapeOne (url :: seen) rest
       { r with
         records := rec :: r.records
         okCount := if rec.status = "ok" then r.okCount + 1 else r.okCount
         failedCount := if rec.status = "ok" then r.failedCount else r.failedCount + 1 }) := by
  simp [scrapeGo, hs, hr]

/-- When the normalized URL passes pydantic `HttpUrl` validation,
`_scrape_one_url` cannot raise: every fetch/extraction outcome is converted
into an ok or failed record. -/
theorem scrapeOneUrl_isOk {url : String} (o : ScrapeOracles) (min_chars : Nat)
    (h : (pydanticHttpUrl (normalize_url url)).isSome = true) :
    ∃ rec, scrapeOneUrl o url min_chars = .ok rec := by
  rcases hv : pydanticHttpUrl (normalize_url url) with _ | u
  · rw [hv] at h
    exact absurd h (by simp)
  · refine ⟨scrapeTryBlock o { url := u } (normalize_url url) min_chars, ?_⟩
    unfold scrapeOneUrl
    dsimp only
    rw [hv]

/-- A scrape batch loop whose per-URL operation never raises on any input URL
never aborts, and it appends one record per not-yet-seen URL (in-run
duplicates skipped). -/
theorem scrapeGo_complete (scrapeOne : String → Except String ArticleRaw) :
    ∀ (urls : List String) (seen : List String),
      (∀ u ∈ urls, ∃ rec, scrapeOne u = .ok rec) →
      (scrapeGo scrapeOne seen urls).err = none ∧
      (scrapeGo scrapeOne seen urls).records.length = countNewUrls seen urls
  | [], seen, _ => by
    rw [scrapeGo_nil]
    exact ⟨rfl, rfl⟩
  | url :: rest, seen, hvalid => by
    by_cases hs : memStr url seen = true
    · rw [scrapeGo_seen scrapeOne seen rest hs]
      have ih := scrapeGo_complete scrapeOne rest seen
        (fun u hu => hvalid u (List.mem_cons_of_mem url hu))
      simpa [countNewUrls, hs] using ih
    · rw [Bool.not_eq_true] at hs
      obtain ⟨rec, hr⟩ := hvalid url (List.mem_cons_self url rest)
      rw [scrapeGo_rec scrapeOne seen rest hs hr]
      have ih := scrapeGo_complete scrapeOne rest (url :: seen)
        (fun u hu => hvalid u (List.mem_cons_of_mem url hu))
      simpa [countNewUrls, hs] using ⟨ih.1, ih.2⟩

theorem countNewUrls_le (seen : List String) :
    ∀ (urls : List String), countNewUrls seen urls ≤ urls.length := by
  intro urls
  induction urls generalizing seen with
  | nil => exact Nat.le_refl 0
  | cons u us ih =>
    by_cases hs : memStr u seen = true
    · simp only [countNewUrls, hs, if_true, List.length_cons]
      exact Nat.le_succ_of_le (ih seen)
    · rw [Bool.not_eq_true] at hs
      simp only [countNewUrls, hs, Bool.false_eq_true, if_false, List.length_cons]
      exact Nat.succ_le_succ (ih (u :: seen))

/-- An analyze batch whose raw file parses and validates on every line always
completes with a summary. -/
theorem analyzeGo_complete (llm : LLMOracle) (limit : Option Nat) :
    ∀ (lines : List (Except String ArticleRaw)) (already : List String) (p f s : Nat),
      (∀ l ∈ lines, l.isOk = true) →
      ∃ sum, (analyzeGo llm limit already p f s lines).summary = .ok sum
  | [], already, p, f, s, _ => ⟨_, rfl⟩
  | .error e :: rest, already, p, f, s, hok => by
    have := hok (.error e) (List.mem_cons_self _ rest)
    simp [Except.isOk, Except.toBool] at this
  | .ok a :: rest, already, p, f, s, hok => by
    have htail : ∀ l ∈ rest, l.isOk = true :=
      fun l hl => hok l (List.mem_cons_of_mem _ hl)
    by_cases hk : iter_ok_keep a = true
    · by_cases hl : limitReached limit p = true
      · rw [analyzeGo_break llm limit already p f s rest hk hl]
        exact ⟨_, rfl⟩
      · rw [Bool.not_eq_true] at hl
        by_cases hs : memStr (normalize_url a.url) already = true
        · rw [analyzeGo_skip_seen llm limit already p f s rest hk hl hs]
          exact analyzeGo_complete llm limit rest already p f (s + 1) htail
        · rw [Bool.not_eq_true] at hs
          cases hllm : llm.analyze a with
          | ok an =>
            rw [analyzeGo_llm_ok llm limit already p f s rest hk hl hs hllm]
            exact analyzeGo_complete llm limit rest _ (p + 1) f s htail
          | error e =>
            rw [analyzeGo_llm_fail llm limit already p f s rest hk hl hs hllm]
            exact analyzeGo_complete llm limit rest _ p (f + 1) s htail
    · rw [Bool.not_eq_true] at hk
      rw [analyzeGo_skip_ineligible llm limit already p f s rest hk]
      exact analyzeGo_complete llm limit rest already p f s htail

/-- An index batch whose AI file parses as JSON on every line always
completes with a summary: validation and embedding failures are counted, not
raised. -/
theorem indexGo_complete (embed : String → Except String Unit) (limit : Option Nat) :
    ∀ (lines : List (Except String (Except String ArticleAI)))
      (existing : List String) (a se si f : Nat),
      (∀ l ∈ lines, l.isOk = true) →
      ∃ sum, (indexGo embed limit existing a se si f lines).summary = .ok sum
  | [], existing, a, se, si, f, _ => ⟨_, rfl⟩
  | .error e :: rest, existing, a, se, si, f, hok => by
    have := hok (.error e) (List.mem_cons_self _ rest)
    simp [Except.isOk, Except.toBool] at this
  | .ok v :: rest, existing, a, se, si, f, hok => by
    have htail : ∀ l ∈ rest, l.isOk = true :=
      fun l hl => hok l (List.mem_cons_of_mem _ hl)
    by_cases hl : limitReached limit a = true
    · rw [indexGo_break embed limit existing a se si f v rest hl]
      exact ⟨_, rfl⟩
    · rw [Bool.not_eq_true] at hl
      cases v with
      | error e =>
        rw [indexGo_invalid embed limit existing a se si f e rest hl]
        exact indexGo_complete embed limit rest existing a se si (f + 1) htail
      | ok art =>
        by_cases hel : (art.status ≠ "ok" || !optStrTruthy art.summary) = true
        · rw [indexGo_ineligible embed limit existing a se si f rest hl hel]
          exact indexGo_complete embed limit rest existing a se (si + 1) f htail
        · rw [Bool.not_eq_true] at hel
          by_cases hex : memStr (article_to_vector_doc art).id existing = true
          · rw [indexGo_skip_existing embed limit existing a se si f rest hl hel hex]
            exact indexGo_complete embed limit rest existing a (se + 1) si f htail
          · rw [Bool.not_eq_true] at hex
            cases hemb : embed (article_to_vector_doc art).text with
            | error e =>
              rw [indexGo_embed_fail embed limit existing a se si f rest hl hel hex hemb]
              obtain ⟨sum, hsum⟩ :=
                indexGo_complete embed limit rest existing a se si (f + 1) htail
              exact ⟨sum, hsum⟩
            | ok u =>
              cases u
              rw [indexGo_add embed limit existing a se si f rest hl hel hex hemb]
              obtain ⟨sum, hsum⟩ := indexGo_complete embed limit rest
                ((article_to_vector_doc art).id :: existing) (a + 1) se si f htail
              exact ⟨sum, hsum⟩

/-- C1 (amended): exceptions raised inside each stage's per-record handler —
fetch and extraction in scrape, the LLM call in analyze, record validation and
embedding in index — are caught and converted into a failed record or a
counted failure, so such failures never abort the batch: with all scrape URLs
passing record validation, all analyze lines parsing and validating, and all
index lines parsing as JSON, every batch completes with a summary whatever the
collaborators do. -/
theorem batch_error_containment :
    (∀ (o : ScrapeOracles) (lines : List String) (outFile : List ArticleRaw)
        (limit : Option Nat) (min_chars : Nat),
        (∀ u ∈ (read_urls_from_file lines).map normalize_url,
            (pydanticHttpUrl (normalize_url u)).isSome = true) →
        ∃ s, (scrape_urls_to_jsonl o lines outFile limit min_chars).summary = .ok s) ∧
    (∀ (llm : LLMOracle) (rawLines : List (Except String ArticleRaw))
        (outFile : List ArticleAI) (limit : Option Nat),
        (∀ l ∈ rawLines, l.isOk = true) →
        ∃ s, (analyze_raw_to_ai_jsonl llm rawLines outFile limit).summary = .ok s) ∧
    (∀ (embed : String → Except String Unit)
        (aiLines : List (Except String (Except String ArticleAI)))
        (store0 : List String) (limit : Option Nat),
        (∀ l ∈ aiLines, l.isOk = true) →
        ∃ s, (index_ai_jsonl_to_chroma embed aiLines store0 limit).summary = .ok s) := by
  refine ⟨?_, ?_, ?_⟩
  · intro o lines outFile limit min_chars hvalid
    have hva : ∀ u ∈ (match limit with
        | some n => ((read_urls_from_file lines).map normalize_url).take n
        | none => (read_urls_from_file lines).map normalize_url),
        ∃ rec, scrapeOneUrl o u min_chars = .ok rec := by
      intro u hu
      refine scrapeOneUrl_isOk o min_chars (hvalid u ?_)
      cases limit with
      | some n => exact List.take_subset n _ hu
      | none => exact hu
    have h := scrapeGo_complete (fun u => scrapeOneUrl o u min_chars) _
      (load_seen_urls outFile) hva
    unfold scrape_urls_to_jsonl
    dsimp only
    rw [h.1]
    exact ⟨_, rfl⟩
  · intro llm rawLines outFile limit hok
    exact analyzeGo_complete llm limit rawLines _ 0 0 0 hok
  · intro embed aiLines store0 limit hok
    exact indexGo_complete embed limit aiLines store0 0 0 0 0 hok

/-- Witness for C1 at concrete batches: a scrape batch whose every fetch
fails, an analyze batch whose LLM always raises, and an index batch whose
only line fails record validation all complete with a summary. -/
theorem batch_error_containment_witness :
    (∃ s, (scrape_urls_to_jsonl demoFetchFail ["https://b.com/x"] [] none 500).summary =
      .ok s) ∧
    (∃ s, (analyze_raw_to_ai_jsonl demoLLMFail [.ok demoRawEligible] [] none).summary =
      .ok s) ∧
    (∃ s, (index_ai_jsonl_to_chroma demoEmbedOk
        [.ok (.error "ValidationError: 1 validation error for ArticleAI")] []
        none).summary = .ok s) :=
  ⟨batch_error_containment.1 demoFetchFail ["https://b.com/x"] [] none 500 (by decide),
   batch_error_containment.2.1 demoLLMFail [.ok demoRawEligible] [] none (by decide),
   batch_error_containment.2.2 demoEmbedOk
     [.ok (.error "ValidationError: 1 validation error for ArticleAI")] [] none (by decide)⟩

/-- Counterexample to C1 as stated: a URL failing record validation in
scrape, a raw line failing validation in analyze, and a non-JSON line in
index each escape the per-record boundary and abort their batch before the
remaining (valid, unseen) records are processed — nothing is appended or
added for them. -/
theorem batch_abort_counterexample :
    (scrape_urls_to_jsonl demoFetchFail ["notaurl", "https://b.com/x"] [] none 500).records
        = [] ∧
    (scrape_urls_to_jsonl demoFetchFail ["notaurl", "https://b.com/x"] [] none 500).summary
        = .error "ValidationError: invalid HttpUrl: notaurl" ∧
    (analyze_raw_to_ai_jsonl demoLLMOk
        [.error "ValidationError: 1 validation error for ArticleRaw", .ok demoRawEligible]
        [] none).appended = [] ∧
    (analyze_raw_to_ai_jsonl demoLLMOk
        [.error "ValidationError: 1 validation error for ArticleRaw", .ok demoRawEligible]
        [] none).summary = .error "ValidationError: 1 validation error for ArticleRaw" ∧
    (index_ai_jsonl_to_chroma demoEmbedOk
        [.error "JSONDecodeError: Expecting value", .ok (.ok demoAiOk)] [] none).addedIds
        = [] ∧
    (index_ai_jsonl_to_chroma demoEmbedOk
        [.error "JSONDecodeError: Expecting value", .ok (.ok demoAiOk)] [] none).summary
        = .error "JSONDecodeError: Expecting value" := by
  decide

/-- C2 (amended): a given `limit` truncates the deduplicated, normalized
input list to its first `limit` entries before the seen-set is consulted, so
already-seen URLs do count toward the limit; the batch appends exactly one
record per not-yet-seen URL among those first `limit` entries (and hence at
most `limit` records), not `limit` records. -/
theorem scrape_limit_truncates (o : ScrapeOracles) (lines : List String)
    (outFile : List ArticleRaw) (n : Nat) (min_chars : Nat)
    (hvalid : ∀ u ∈ (read_urls_from_file lines).map normalize_url,
        (pydanticHttpUrl (normalize_url u)).isSome = true) :
    (scrape_urls_to_jsonl o lines outFile (some n) min_chars).records.length =
      countNewUrls (load_seen_urls outFile)
        (((read_urls_from_file lines).map normalize_url).take n) ∧
    (scrape_urls_to_jsonl o lines outFile (some n) min_chars).records.length ≤ n := by
  have hva : ∀ u ∈ ((read_urls_from_file lines).map normalize_url).take n,
      ∃ rec, scrapeOneUrl o u min_chars = .ok rec :=
    fun u hu => scrapeOneUrl_isOk o min_chars (hvalid u (List.take_subset n _ hu))
  have h := scrapeGo_complete (fun u => scrapeOneUrl o u min_chars) _
    (load_seen_urls outFile) hva
  have hlen : (scrape_urls_to_jsonl o lines outFile (some n) min_chars).records.length =
      countNewUrls (load_seen_urls outFile)
        (((read_urls_from_file lines).map normalize_url).take n) := by
    unfold scrape_urls_to_jsonl
    dsimp only
    exact h.2
  refine ⟨hlen, ?_⟩
  rw [hlen]
  refine Nat.le_trans (countNewUrls_le _ _) ?_
  rw [List.length_take]
  exact Nat.min_le_left n _

/-- Witness for C2's amended statement at a concrete batch. -/
theorem scrape_limit_truncates_witness :
    (scrape_urls_to_jsonl demoFetchFail ["https://a.com/x", "https://a.com/y"]
        [{ url := "https://a.com/x" }] (some 1) 500).records.length =
      countNewUrls (load_seen_urls [{ url := "https://a.com/x" }])
        (((read_urls_from_file ["https://a.com/x", "https://a.com/y"]).map
            normalize_url).take 1) ∧
    (scrape_urls_to_jsonl demoFetchFail ["https://a.com/x", "https://a.com/y"]
        [{ url := "https://a.com/x" }] (some 1) 500).records.length ≤ 1 :=
  scrape_limit_truncates demoFetchFail ["https://a.com/x", "https://a.com/y"]
    [{ url := "https://a.com/x" }] 1 500 (by decide)

/-- Counterexample to C2 as stated: with `limit = 1`, an input whose first
entry is already seen and whose second entry is unseen appends zero records —
the skip consumed the limit — where the claim demands exactly one. -/
theorem scrape_limit_skip_counterexample :
    (scrape_urls_to_jsonl demoFetchFail ["https://a.com/x", "https://a.com/y"]
        [{ url := "https://a.com/x" }] (some 1) 500).records.length = 0 ∧
    (scrape_urls_to_jsonl demoFetchFail ["https://a.com/x", "https://a.com/y"]
        [{ url := "https://a.com/x" }] (some 1) 500).summary =
      .ok { total_input := 1, ok := 0, failed := 0, skipped_existing := 1 } := by
  decide

/-- C3 (code bug): scrape stores a record's URL through pydantic `HttpUrl`,
which serializes `https://a.com` (empty path) as `https://a.com/`; the second
run's seen set therefore never matches the normalized input URL, so the run
re-scrapes it: the second summary has `ok + failed = 1` and
`skipped_existing = 0` and one duplicate line is appended, where the spec
demands `ok + failed = 0`, `skipped_existing = total_input` and no new
lines. -/
theorem scrape_rerun_not_idempotent :
    (scrape_urls_to_jsonl demoFetchFail ["https://a.com"]
        (scrape_urls_to_jsonl demoFetchFail ["https://a.com"] [] none 500).records
        none 500).summary =
      .ok { total_input := 1, ok := 0, failed := 1, skipped_existing := 0 } ∧
    (scrape_urls_to_jsonl demoFetchFail ["https://a.com"]
        (scrape_urls_to_jsonl demoFetchFail ["https://a.com"] [] none 500).records
        none 500).records.length = 1 := by
  decide

/-! ### C4: ingest twice on the same URL -/

theorem findLatest_foldl_some {α : Type} (getUrl : α → String) (pred : α → Bool)
    (target : String) :
    ∀ (file : List α) (acc : Option α) (r : α),
      file.foldl (findLatestStep getUrl pred target) acc = some r →
      acc = some r ∨ (getUrl r ≠ "" ∧ normalize_url (getUrl r) = target ∧ pred r = true)
  | [], acc, r, h => Or.inl h
  | rec :: rest, acc, r, h => by
    rcases findLatest_foldl_some getUrl pred target rest
        (findLatestStep getUrl pred target acc rec) r h with hstep | hp
    · unfold findLatestStep at hstep
      by_cases h0 : getUrl rec = ""
      · rw [if_pos h0] at hstep
        exact Or.inl hstep
      · rw [if_neg h0] at hstep
        by_cases hm : normalize_url (getUrl rec) ≠ target
        · rw [if_pos hm] at hstep
          exact Or.inl hstep
        · rw [if_neg hm] at hstep
          by_cases hpred : pred rec = true
          · rw [if_pos hpred] at hstep
            cases hstep
            exact Or.inr ⟨h0, Classical.byContradiction fun hne => hm hne, hpred⟩
          · rw [if_neg hpred] at hstep
            exact Or.inl hstep
    · exact Or.inr hp

/-- When `_find_latest_by_url` returns a record, that record has a truthy url
whose normalization equals the normalized lookup target, and it satisfies the
predicate. -/
theorem findLatestByUrl_some {α : Type} {getUrl : α → String} {pred : α → Bool}
    {file : List α} {url : String} {r : α}
    (h : findLatestByUrl getUrl file url pred = some r) :
    getUrl r ≠ "" ∧ normalize_url (getUrl r) = normalize_url url ∧ pred r = true := by
  rcases findLatest_foldl_some getUrl pred (normalize_url url) file none r h with h0 | hp
  · cases h0
  · exact hp

/-- The enriched record returned by a successful `analyze_one_article_raw`
copies the raw record's fields, so in particular its URL. -/
theorem analyze_one_ok_shape {llm : LLMOracle} {raw : ArticleRaw} {enriched : ArticleAI}
    (h : analyze_one_article_raw llm raw = .ok enriched) :
    ∃ an, llm.analyze raw = .ok an ∧
      enriched = { toArticleRaw := raw, summary := some an.summary, topics := an.topics,
                   llm_model := some llm.model } := by
  unfold analyze_one_article_raw at h
  cases hla : llm.analyze raw with
  | error e =>
    rw [hla] at h
    simp [Except.map] at h
  | ok an =>
    rw [hla] at h
    simp only [Except.map, Except.ok.injEq] at h
    exact ⟨an, rfl, h.symm⟩

/-- When the normalized URL is already in the AI seen set, `ingest_url`
returns the already-analyzed skip immediately, touching no collaborator and
no state. -/
theorem ingest_skip {d : IngestDeps} {url : String} {min_chars : Nat} {st : IngestState}
    (h : memStr (normalize_url url) (load_seen_urls_ai st.aiFile) = true) :
    ingest_url d url min_chars st =
      { result := .ok { status := "ok", url := normalize_url url, skipped := true,
                        reason := some "already_analyzed" }
        state := st
        trace := [] } := by
  unfold ingest_url
  dsimp only
  rw [if_pos h]

/-- When the URL is not in the AI seen set and the scrape step raises,
`ingest_url` propagates the exception with the state unchanged. -/
theorem ingest_eq_scrape_abort {d : IngestDeps} {url : String} {min_chars : Nat}
    {st : IngestState} {ar : List ArticleRaw} {e : String}
    (hseen : memStr (normalize_url url) (load_seen_urls_ai st.aiFile) = false)
    (hp : scrape_single_url_to_jsonl d.scrape (normalize_url url) st.rawFile min_chars =
      (ar, .error e)) :
    (ingest_url d url min_chars st).result = .error e ∧
    (ingest_url d url min_chars st).state.aiFile = st.aiFile := by
  unfold ingest_url
  dsimp only
  rw [if_neg (by rw [hseen]; exact Bool.false_ne_true), hp]
  exact ⟨rfl, rfl⟩

/-- When no eligible raw record is found, `ingest_url` fails at the scrape
stage without touching the AI file. -/
theorem ingest_eq_scrape_failed {d : IngestDeps} {url : String} {min_chars : Nat}
    {st : IngestState} {ar : List ArticleRaw} {ssum : ScrapeSummary}
    (hseen : memStr (normalize_url url) (load_seen_urls_ai st.aiFile) = false)
    (hp : scrape_single_url_to_jsonl d.scrape (normalize_url url) st.rawFile min_chars =
      (ar, .ok ssum))
    (hfr : findLatestByUrl (fun r => r.url) (st.rawFile ++ ar) (normalize_url url)
      ingestRawOk = none) :
    (ingest_url d url min_chars st).result =
      .ok { status := "failed", url := normalize_url url, stage := some "scrape" } ∧
    (ingest_url d url min_chars st).state.aiFile = st.aiFile := by
  unfold ingest_url
  dsimp only
  rw [if_neg (by rw [hseen]; exact Bool.false_ne_true), hp]
  dsimp only
  rw [hfr]
  exact ⟨rfl, rfl⟩

/-- When the LLM analysis of the found raw record raises, `ingest_url`
appends the failed AI record and reports the analyze stage. -/
theorem ingest_eq_analyze_failed {d : IngestDeps} {url : String} {min_chars : Nat}
    {st : IngestState} {ar : List ArticleRaw} {ssum : ScrapeSummary} {raw : ArticleRaw}
    {e : String}
    (hseen : memStr (normalize_url url) (load_seen_urls_ai st.aiFile) = false)
    (hp : scrape_single_url_to_jsonl d.scrape (normalize_url url) st.rawFile min_chars =
      (ar, .ok ssum))
    (hfr : findLatestByUrl (fun r => r.url) (st.rawFile ++ ar) (normalize_url url)
      ingestRawOk = some raw)
    (han : analyze_one_article_raw d.llm raw = .error e) :
    (ingest_url d url min_chars st).result =
      .ok { status := "failed", url := normalize_url url, stage := some "analyze" } ∧
    (ingest_url d url min_chars st).state.aiFile =
      st.aiFile ++ [build_failed_ai_from_raw d.llm raw e] := by
  unfold ingest_url
  dsimp only
  rw [if_neg (by rw [hseen]; exact Bool.false_ne_true), hp]
  dsimp only
  rw [hfr]
  dsimp only
  rw [han]
  exact ⟨rfl, rfl⟩

/-- After a successful analysis, every remaining branch of `ingest_url` has
appended exactly the enriched record to the AI file, and the call returns
`ok` with `skipped = false` or fails at the index stage or on the embedding
call. -/
theorem ingest_eq_after_analyze {d : IngestDeps} {url : String} {min_chars : Nat}
    {st : IngestState} {ar : List ArticleRaw} {ssum : ScrapeSummary} {raw : ArticleRaw}
    {enriched : ArticleAI}
    (hseen : memStr (normalize_url url) (load_seen_urls_ai st.aiFile) = false)
    (hp : scrape_single_url_to_jsonl d.scrape (normalize_url url) st.rawFile min_chars =
      (ar, .ok ssum))
    (hfr : findLatestByUrl (fun r => r.url) (st.rawFile ++ ar) (normalize_url url)
      ingestRawOk = some raw)
    (han : analyze_one_article_raw d.llm raw = .ok enriched) :
    (ingest_url d url min_chars st).state.aiFile = st.aiFile ++ [enriched] ∧
    ((findLatestByUrl (fun a => a.url) (st.aiFile ++ [enriched]) (normalize_url url)
        ingestAiOk = none) →
      (ingest_url d url min_chars st).result =
        .ok { status := "failed", url := normalize_url url, stage := some "index" }) := by
  unfold ingest_url
  dsimp only
  rw [if_neg (by rw [hseen]; exact Bool.false_ne_true), hp]
  dsimp only
  rw [hfr]
  dsimp only
  rw [han]
  dsimp only
  constructor
  · split
    · rfl
    · split
      · rfl
      · split
        · rfl
        · rfl
  · intro hfa
    rw [hfa]

/-- After an `ingest_url` call returning `ok` with `skipped = false`, the
normalized URL is in the seen set of the resulting AI file, provided the
canonical URL is stable under a second normalization. -/
theorem ingest_ok_mem_seen (d : IngestDeps) (url : String) (min_chars : Nat)
    (st : IngestState) (res : IngestResult)
    (hstable : normalize_url (normalize_url url) = normalize_url url)
    (h1 : (ingest_url d url min_chars st).result = .ok res)
    (h2 : res.status = "ok") (h3 : res.skipped = false) :
    memStr (normalize_url url)
      (load_seen_urls_ai (ingest_url d url min_chars st).state.aiFile) = true := by
  by_cases hseen : memStr (normalize_url url) (load_seen_urls_ai st.aiFile) = true
  · rw [ingest_skip hseen] at h1
    dsimp only at h1
    cases h1
    exact absurd h3 (by simp)
  · rw [Bool.not_eq_true] at hseen
    rcases hp : scrape_single_url_to_jsonl d.scrape (normalize_url url) st.rawFile min_chars
      with ⟨ar, sres⟩
    cases sres with
    | error e =>
      rw [(ingest_eq_scrape_abort hseen hp).1] at h1
      cases h1
    | ok ssum =>
      rcases hfr : findLatestByUrl (fun r => r.url) (st.rawFile ++ ar) (normalize_url url)
          ingestRawOk with _ | raw
      · rw [(ingest_eq_scrape_failed hseen hp hfr).1] at h1
        cases h1
        exact absurd h2 (by simp)
      · cases han : analyze_one_article_raw d.llm raw with
        | error e =>
          rw [(ingest_eq_analyze_failed hseen hp hfr han).1] at h1
          cases h1
          exact absurd h2 (by simp)
        | ok enriched =>
          obtain ⟨hraw_ne, hraw_eq, _⟩ := findLatestByUrl_some hfr
          obtain ⟨an, _, henr⟩ := analyze_one_ok_shape han
          have hurl : enriched.url = raw.url := by
            rw [henr]
          rw [(ingest_eq_after_analyze hseen hp hfr han).1]
          have := mem_load_seen_urls_ai
            (List.mem_append_right st.aiFile (List.mem_singleton.mpr rfl))
            (by rw [hurl]; exact hraw_ne)
          rw [hurl, hraw_eq, hstable] at this
          exact this

/-- C4 (amended): for every URL whose canonical form is stable under a second
normalization, if a first `ingest_url` call succeeds end-to-end (status `ok`,
`skipped = false`), a second call on the same URL returns `ok` with
`skipped = true` and `reason = "already_analyzed"`, performs no fetch, LLM or
embedding call, and leaves the raw file, AI file and vector store unchanged. -/
theorem ingest_twice_skips (d : IngestDeps) (url : String) (min_chars : Nat)
    (st : IngestState) (res : IngestResult)
    (hstable : normalize_url (normalize_url url) = normalize_url url)
    (h1 : (ingest_url d url min_chars st).result = .ok res)
    (h2 : res.status = "ok") (h3 : res.skipped = false) :
    ingest_url d url min_chars (ingest_url d url min_chars st).state =
      { result := .ok { status := "ok", url := normalize_url url, skipped := true,
                        reason := some "already_analyzed" }
        state := (ingest_url d url min_chars st).state
        trace := [] } :=
  ingest_skip (ingest_ok_mem_seen d url min_chars st res hstable h1 h2 h3)

/-- Witness for C4's amended statement: a concrete end-to-end successful
first ingest of a stable URL makes the second call skip. -/
theorem ingest_twice_skips_witness :
    ingest_url demoDeps "https://e.com/a" 1
        (ingest_url demoDeps "https://e.com/a" 1
          { rawFile := [], aiFile := [], store := [] }).state =
      { result := .ok { status := "ok", url := normalize_url "https://e.com/a",
                        skipped := true, reason := some "already_analyzed" }
        state := (ingest_url demoDeps "https://e.com/a" 1
          { rawFile := [], aiFile := [], store := [] }).state
        trace := [] } :=
  ingest_twice_skips demoDeps "https://e.com/a" 1
    { rawFile := [], aiFile := [], store := [] }
    { status := "ok", url := "https://e.com/a", skipped := false,
      index_added := some 1, index_skipped_existing := some 0 }
    (by decide) (by decide) rfl rfl

/-- Counterexample to C4 as stated: `normalize_url` is not idempotent on
`https://e.com/a//` (two trailing slashes need two passes), the AI seen-set
check uses one normalization pass while the record lookups use two, so after
a first fully successful ingest the second call does not skip: it returns
`ok` with `skipped = false`, calls the LLM and the embedding client again,
and appends a second AI record for the same article. -/
theorem ingest_twice_counterexample :
    (ingest_url demoDeps "https://e.com/a//" 1
        { rawFile := [], aiFile := [], store := [] }).result =
      .ok { status := "ok", url := "https://e.com/a/", skipped := false,
            index_added := some 1, index_skipped_existing := some 0 } ∧
    (ingest_url demoDeps "https://e.com/a//" 1
        (ingest_url demoDeps "https://e.com/a//" 1
          { rawFile := [], aiFile := [], store := [] }).state).result =
      .ok { status := "ok", url := "https://e.com/a/", skipped := false,
            index_added := some 1, index_skipped_existing := some 0 } ∧
    (ingest_url demoDeps "https://e.com/a//" 1
        (ingest_url demoDeps "https://e.com/a//" 1
          { rawFile := [], aiFile := [], store := [] }).state).trace =
      [CallEvent.llmCall, CallEvent.embedCall] := by
  refine ⟨rfl, rfl, rfl⟩

/-! ### C10: the trailing-slash test applies to the reassembled URL -/

theorem dropWhile_eq_self_of_head {p : Char → Bool} {l : List Char} {c : Char}
    (h : l.head? = some c) (hc : p c = false) : l.dropWhile p = l := by
  cases l with
  | nil => cases h
  | cons a t =>
    have hac : a = c := by
      simpa using h
    rw [List.dropWhile_cons, hac, hc]
    simp

theorem splitOnFirst_eq_none {c : Char} :
    ∀ {l : List Char}, (∀ x ∈ l, x ≠ c) → splitOnFirst c l = none
  | [], _ => rfl
  | x :: xs, h => by
    unfold splitOnFirst
    rw [if_neg (h x (List.mem_cons_self x xs))]
    rw [splitOnFirst_eq_none (fun y hy => h y (List.mem_cons_of_mem x hy))]

theorem pyStrip_eq_self :
    ∀ {l : List Char}, (∀ c, l.head? = some c → pyIsSpace c = false) →
      (∀ c, l.getLast? = some c → pyIsSpace c = false) → pyStrip l = l
  | [], _, _ => rfl
  | a :: t, h1, h2 => by
    unfold pyStrip
    rw [dropWhile_eq_self_of_head (l := a :: t) (c := a) rfl (h1 a rfl)]
    obtain ⟨c, hc⟩ : ∃ c, (a :: t).reverse.head? = some c := by
      cases hrev : (a :: t).reverse with
      | nil => exact absurd hrev (by simp)
      | cons b bs => exact ⟨b, by simp [hrev]⟩
    rw [dropWhile_eq_self_of_head hc (h2 c (by rw [← List.head?_reverse]; exact hc))]
    exact List.reverse_reverse _

theorem dropLast_append_of_ne_nil :
    ∀ (l₁ : List Char) {l₂ : List Char}, l₂ ≠ [] →
      (l₁ ++ l₂).dropLast = l₁ ++ l₂.dropLast
  | [], _, _ => rfl
  | a :: t, l₂, h => by
    rw [List.cons_append, List.dropLast_cons_of_ne_nil (by simp [h]),
      dropLast_append_of_ne_nil t h, List.cons_append]

/-- C10: `normalize_url` tests the final character of the whole reassembled
URL, not of the path component: for every query string ending in `/` (and
containing no `#` or tab/CR/LF), normalizing `https://a.com/x?<query>`
deletes the final character of the query even though the path `/x` has no
trailing slash — in particular `https://a.com/x?q=/` maps to
`https://a.com/x?q=`. -/
theorem normalize_url_drops_query_slash (q : List Char)
    (hlast : q.getLast? = some '/')
    (hq : ∀ c ∈ q, c ≠ '#' ∧ isUnsafeUrlChar c = false) :
    normalize_url (String.mk ("https://a.com/x?".toList ++ q)) =
      String.mk ("https://a.com/x?".toList ++ q.dropLast) := by
  have hq_ne : q ≠ [] := by
    intro h
    rw [h] at hlast
    cases hlast
  have hlast2 : ("https://a.com/x?".toList ++ q).getLast? = some '/' := by
    rw [List.getLast?_append_of_ne_nil _ hq_ne]
    exact hlast
  have hstrip : pyStrip ("https://a.com/x?".toList ++ q) =
      "https://a.com/x?".toList ++ q := by
    refine pyStrip_eq_self (fun c hc => ?_) (fun c hc => ?_)
    · have : c = 'h' := by
        simpa using hc.symm
      rw [this]
      rfl
    · rw [hlast2] at hc
      have : c = '/' := by
        simpa using hc.symm
      rw [this]
      rfl
  have hfil : (("https://a.com/x?".toList ++ q).dropWhile isC0ControlOrSpace).filter
      (fun c => !isUnsafeUrlChar c) = "https://a.com/x?".toList ++ q := by
    rw [dropWhile_eq_self_of_head (l := "https://a.com/x?".toList ++ q) (c := 'h') rfl rfl]
    refine List.filter_eq_self.mpr fun a ha => ?_
    rcases List.mem_append.mp ha with hpre | hqmem
    · fin_cases hpre <;> rfl
    · rw [(hq a hqmem).2]
      rfl
  have hfrag : urlsplitFrag ('/' :: 'x' :: '?' :: q) =
      ('/' :: 'x' :: '?' :: q, ([] : List Char)) := by
    unfold urlsplitFrag
    rw [splitOnFirst_eq_none]
    intro x hx
    simp only [List.mem_cons] at hx
    rcases hx with rfl | rfl | rfl | hx
    · decide
    · decide
    · decide
    · exact (hq x hx).1
  have hsplit : urlsplit ("https://a.com/x?".toList ++ q) =
      { scheme := "https".toList, netloc := "a.com".toList, path := "/x".toList,
        query := q, fragment := [] } := by
    unfold urlsplit
    dsimp only
    rw [hfil]
    rw [show urlsplitScheme ("https://a.com/x?".toList ++ q) =
      ("https".toList, "//a.com/x?".toList ++ q) from rfl]
    dsimp only
    rw [show urlsplitNetloc ("//a.com/x?".toList ++ q) =
      ("a.com".toList, '/' :: 'x' :: '?' :: q) from rfl]
    dsimp only
    rw [hfrag]
    dsimp only
    rw [show urlsplitQuery ('/' :: 'x' :: '?' :: q) = ("/x".toList, q) from rfl]
  have huns : urlunsplit
      { scheme := "https".toList, netloc := "a.com".toList, path := "/x".toList,
        query := q, fragment := ([] : List Char) } =
      "https://a.com/x?".toList ++ q := by
    unfold urlunsplit
    dsimp only
    rw [if_neg (show ¬(([] : List Char) ≠ []) by decide)]
    rw [if_pos hq_ne]
    rw [if_pos (show ("https".toList : List Char) ≠ [] by decide)]
    rw [if_pos (show (decide (("a.com".toList : List Char) ≠ []) ||
      decide (List.take 2 ("/x".toList : List Char) = ['/', '/'])) = true by decide)]
    rw [if_neg (show ¬((decide (("/x".toList : List Char) ≠ []) &&
      decide (("/x".toList : List Char).headD '/' ≠ '/')) = true) by decide)]
    rfl
  unfold normalize_url
  dsimp only
  rw [show (String.mk ("https://a.com/x?".toList ++ q)).toList =
    "https://a.com/x?".toList ++ q from rfl]
  rw [hstrip, hsplit]
  dsimp only
  rw [huns]
  rw [if_pos (by rw [hlast2]; decide)]
  rw [dropLast_append_of_ne_nil _ hq_ne]

/-- Witness for C10 at the concrete query `q=/`. -/
theorem normalize_url_drops_query_slash_witness :
    normalize_url (String.mk ("https://a.com/x?".toList ++ "q=/".toList)) =
      String.mk ("https://a.com/x?".toList ++ ("q=/".toList).dropLast) :=
  normalize_url_drops_query_slash "q=/".toList (by decide) (by decide)

end NewsScraper
